import Mathlib

/-!
A shallow embedding of the `deps` dependency-injection engine (ClickerMonkey/deps,
`deps.go`) and proofs about its specification.

Modelling conventions:
* `Ty` (a `reflect.Type` key) and `Val` (the identity of a `*V` instance, i.e. a
  pointer) are both `Nat`.
* Every scope is identified by a `Nat` id.  A `*Scope` value is rendered as the
  list of scope ids from that scope up to the root (`chain`), since the only
  link between scopes is the `parent` pointer.
* The registration-time data (`scope.providers`, the `scope.Dynamic` callback,
  and which types implement the `Dynamic` interface) is immutable during the
  operations modelled here, so it lives in a fixed environment `Env` indexed by
  scope id.  The mutable `scope.instances` maps live in a `Store` from scope id
  to an association list.
* User callbacks (`Create`, `Free`, `AfterPointerUse`, `ProvideDynamic`, the
  scope's `Dynamic` callback) are modelled as data describing their observable
  result: a successful `Create` allocates a fresh instance id from a counter and
  does not re-enter the engine.  Calls to them are recorded in an event trace.
* Go `error` values are the `Err` inductive; comparisons such as
  `err != ErrNoProvider` compare identities, which the embedding renders as the
  `isNoProvider` discriminator.
-/

namespace Deps

/-- A `reflect.Type` key. -/
abbrev Ty := Nat

/-- The identity of an instance pointer (`*V`). -/
abbrev Val := Nat

/-- The `Lifetime` enum from `deps.go` (`LifetimeForever`, `LifetimeScope`,
`LifetimeOnce`). -/
inductive Lifetime where
  | forever
  | scoped
  | once
deriving DecidableEq, Repr

/-- Go error values used by the engine.  `custom n` stands for an error produced
by user callbacks; `multi errs` is the `multiError` aggregate. -/
inductive Err where
  | noProvider
  | missingCreate
  | notPointer
  | notFunc
  | invalidValue
  | custom (n : Nat)
  | multi (errs : List Err)

/-- Identity comparison against `ErrNoProvider` (`err != ErrNoProvider`). -/
def isNoProvider : Err → Bool
  | Err.noProvider => true
  | _ => false

/-- Discriminator for `LifetimeOnce`. -/
def isOnce : Lifetime → Bool
  | Lifetime.once => true
  | _ => false

/-- The observable behaviour of a provider's `Create` callback: it either
allocates a fresh instance and succeeds, or fails with an error. -/
inductive CreateSpec where
  | succeed
  | fail (e : Err)

/-- A `Provider[V]` record: lifetime plus the three optional callbacks, each
modelled by its observable result (`none` = the Go field is `nil`).
`afterPointerUse`/`free` carry the error the callback returns (`none` = `nil`). -/
structure Provider where
  lifetime : Lifetime
  create : Option CreateSpec
  afterPointerUse : Option (Option Err) := none
  free : Option (Option Err) := none

/-- Result of a scope's `Dynamic` callback: an error, a value, or `(nil, nil)`. -/
inductive DynRes where
  | err (e : Err)
  | val (v : Val)
  | nope

/-- The immutable registration data: provider links per scope id
(`scope.providers`), the per-scope `Dynamic` callback, and which type keys
implement the `Dynamic` interface (`some res` = implements it and
`ProvideDynamic` returns `res`, with `none` meaning a `nil` error). -/
structure Env where
  providersOf : Nat → Ty → Option Provider
  dynCbOf : Nat → Option (Ty → DynRes)
  dynTypes : Ty → Option (Option Err)

/-- The mutable side: each scope id's `instances` association list. -/
abbrev Store := Nat → List (Ty × Val)

/-- Update one scope's instance map in the store. -/
def updStore (st : Store) (i : Nat) (l : List (Ty × Val)) : Store :=
  fun j => if j = i then l else st j

/-- Go map lookup on an association list. -/
def lookupA (l : List (Ty × Val)) (k : Ty) : Option Val :=
  match l with
  | [] => none
  | (k', v) :: rest => if k' = k then some v else lookupA rest k

/-- Go map assignment `m[k] = v` on an association list. -/
def setA (l : List (Ty × Val)) (k : Ty) (v : Val) : List (Ty × Val) :=
  (k, v) :: l.filter (fun p => p.1 ≠ k)

/-- Go map `delete(m, k)` on an association list. -/
def eraseA (l : List (Ty × Val)) (k : Ty) : List (Ty × Val) :=
  l.filter (fun p => p.1 ≠ k)

/-- A Go value tree as traversed by the hydrator, with each slot carrying its
declared type key.  `prim` covers opaque leaf kinds (numbers, strings, chans,
funcs, non-nil interfaces); `fromInst ty v` is a slot whose content was copied
from resolved instance `v` (`ptr.Elem().Set(reflect.ValueOf(val).Elem())`);
`nilRef` is a nil pointer/slice/chan/func/interface; `ptrVal` a non-nil
pointer (not recursed into); `structV`/`arrV` are composites with addressable
elements; `mapV` keeps its entries plus the zero value of the map's value type
(each entry is re-built by hydrating a fresh zero via `reflect.New`). -/
inductive GoVal where
  | prim (ty : Ty) (data : Nat)
  | fromInst (ty : Ty) (v : Val)
  | nilRef (ty : Ty)
  | ptrVal (ty : Ty) (target : Val)
  | structV (ty : Ty) (fields : List GoVal)
  | arrV (ty : Ty) (elems : List GoVal)
  | mapV (ty : Ty) (entries : List (Nat × GoVal)) (zero : GoVal)

/-- The declared type key of a value slot (`ptr.Type().Elem()` for the slot's
address). -/
def tyOf : GoVal → Ty
  | GoVal.prim ty _ => ty
  | GoVal.fromInst ty _ => ty
  | GoVal.nilRef ty => ty
  | GoVal.ptrVal ty _ => ty
  | GoVal.structV ty _ => ty
  | GoVal.arrV ty _ => ty
  | GoVal.mapV ty _ _ => ty

/-- An argument passed to an invoked function: a pointer to a resolved instance
(`reflect.ValueOf(val)`) or a hydrated value (`val.Elem()`). -/
inductive Arg where
  | ptrArg (v : Val)
  | valArg (gv : GoVal)

/-- Trace events recording the calls the engine makes into user code.  `freed`
carries the error the `Free` callback returned; `called` records the argument
list the invoked function received. -/
inductive Event where
  | created (key : Ty) (v : Val)
  | freed (key : Ty) (v : Val) (res : Option Err)
  | apu (key : Ty) (v : Val)
  | dynType (key : Ty)
  | dynCall (key : Ty)
  | called (args : List Arg)

/-- Result of `Scope.Get`. -/
structure GetRes where
  res : Except Err Val
  store : Store
  fresh : Nat
  events : List Event

/-- Result of `GetScoped` (which, unlike `Scope.Get`, can panic: it calls
`provider.Create` without a nil check). -/
inductive Outcome where
  | ok (v : Val)
  | err (e : Err)
  | panicked

/-- Result record for `GetScoped`. -/
structure ScopedRes where
  out : Outcome
  store : Store
  fresh : Nat
  events : List Event

/-- Result of `providerLink.get`. -/
structure LinkRes where
  res : Except Err Val
  store : Store
  fresh : Nat
  events : List Event

/-- `Scope.getLink`: walk this scope and then its parents until a provider
link for the key is found. -/
def getLink (env : Env) : List Nat → Ty → Option Provider
  | [], _ => none
  | id :: rest, key =>
    match env.providersOf id key with
    | some p => some p
    | none => getLink env rest key

/-- `providerLink.get(scope)`: return the scope's cached instance or lazily
create one via `Create`, caching it on `scope` (the scope with id `id`).
A `nil` `Create` yields `ErrMissingCreate`. -/
def linkGet (p : Provider) (key : Ty) (id : Nat) (st : Store) (fresh : Nat) : LinkRes :=
  match lookupA (st id) key with
  | some v => ⟨Except.ok v, st, fresh, []⟩
  | none =>
    match p.create with
    | none => ⟨Except.error Err.missingCreate, st, fresh, []⟩
    | some (CreateSpec.fail e) => ⟨Except.error e, st, fresh, []⟩
    | some CreateSpec.succeed =>
      ⟨Except.ok fresh, updStore st id (setA (st id) key fresh), fresh + 1,
        [Event.created key fresh]⟩

/-- `providerLink.free(scope)`: call `Free` if present (reading the cached
instance), then delete the instance from the scope's map. -/
def linkFree (p : Provider) (key : Ty) (id : Nat) (st : Store) :
    Option Err × Store × List Event :=
  match p.free with
  | none => (none, updStore st id (eraseA (st id) key), [])
  | some r =>
    (r, updStore st id (eraseA (st id) key),
      [Event.freed key ((lookupA (st id) key).getD 0) r])

/-- `providerLink.afterPointerUse(scope)`: call `AfterPointerUse` if present,
on the cached instance. -/
def linkAfterPointerUse (p : Provider) (key : Ty) (id : Nat) (st : Store) :
    Option Err × List Event :=
  match p.afterPointerUse with
  | none => (none, [])
  | some r => (r, [Event.apu key ((lookupA (st id) key).getD 0)])

/-- The guard `deepLink != nil && deepLink.lifetime() == LifetimeScope`. -/
def scopedLink : Option Provider → Option Provider
  | some p => if p.lifetime = Lifetime.scoped then some p else none
  | none => none

/-- The dynamic fallback of `Scope.Get`: first `GetDynamic(key)` (the type's
own `Dynamic` capability, which allocates a fresh instance via `reflect.New`
and runs `ProvideDynamic` on it), then the scope's `Dynamic` callback.  Neither
path writes to any instance map. -/
def dynFallback (env : Env) (id : Nat) (key : Ty) (st : Store) (fresh : Nat) : GetRes :=
  match env.dynTypes key with
  | some pd =>
    match pd with
    | some e => ⟨Except.error e, st, fresh + 1, [Event.dynType key]⟩
    | none => ⟨Except.ok fresh, st, fresh + 1, [Event.dynType key]⟩
  | none =>
    match env.dynCbOf id with
    | some cb =>
      match cb key with
      | DynRes.err e => ⟨Except.error e, st, fresh, [Event.dynCall key]⟩
      | DynRes.val v => ⟨Except.ok v, st, fresh, [Event.dynCall key]⟩
      | DynRes.nope => ⟨Except.error Err.noProvider, st, fresh, [Event.dynCall key]⟩
    | none => ⟨Except.error Err.noProvider, st, fresh, []⟩

/-- One step of `Scope.Get` on the scope `id` with ancestor ids `rest`,
mirroring `deps.go` lines 284-320: cached instance, then the nearest
`Scope`-lifetime link (cached on the requesting scope), then the local
provider, then full delegation to the parent, then the dynamic fallback, else
`ErrNoProvider`.  `pr` is the result the parent's recursive `Get` would
produce; the model is pure, so it is supplied eagerly and consulted only in
the delegation branch. -/
def scopeGetAt (env : Env) (id : Nat) (rest : List Nat) (st : Store) (key : Ty)
    (fresh : Nat) (pr : GetRes) : GetRes :=
  match lookupA (st id) key with
  | some v => ⟨Except.ok v, st, fresh, []⟩
  | none =>
    match scopedLink (getLink env (id :: rest) key) with
    | some deep =>
      let r := linkGet deep key id st fresh
      ⟨r.res, r.store, r.fresh, r.events⟩
    | none =>
      match env.providersOf id key with
      | some p =>
        let r := linkGet p key id st fresh
        ⟨r.res, r.store, r.fresh, r.events⟩
      | none =>
        match rest with
        | [] => dynFallback env id key st fresh
        | _ :: _ =>
          match pr.res with
          | Except.ok _ => pr
          | Except.error e =>
            if isNoProvider e then
              let dr := dynFallback env id key pr.store pr.fresh
              ⟨dr.res, dr.store, dr.fresh, pr.events ++ dr.events⟩
            else pr

/-- `Scope.Get(key)` on the scope whose ancestor chain of ids is the list
argument (head = the receiver): recurse up the chain per `scopeGetAt`. -/
def scopeGet (env : Env) : List Nat → Store → Ty → Nat → GetRes
  | [], st, _, fresh => ⟨Except.error Err.noProvider, st, fresh, []⟩
  | id :: rest, st, key, fresh =>
    scopeGetAt env id rest st key fresh (scopeGet env rest st key fresh)

/-- The dynamic fallback as it appears in `GetScoped` (same behaviour as the
`Scope.Get` one in this model; the Go code differs only in how it type-asserts
the produced value, and the model assumes the assertion succeeds). -/
def scopedDynFallback (env : Env) (id : Nat) (key : Ty) (st : Store) (fresh : Nat) :
    ScopedRes :=
  match env.dynTypes key with
  | some pd =>
    match pd with
    | some e => ⟨Outcome.err e, st, fresh + 1, [Event.dynType key]⟩
    | none => ⟨Outcome.ok fresh, st, fresh + 1, [Event.dynType key]⟩
  | none =>
    match env.dynCbOf id with
    | some cb =>
      match cb key with
      | DynRes.err e => ⟨Outcome.err e, st, fresh, [Event.dynCall key]⟩
      | DynRes.val v => ⟨Outcome.ok v, st, fresh, [Event.dynCall key]⟩
      | DynRes.nope => ⟨Outcome.err Err.noProvider, st, fresh, [Event.dynCall key]⟩
    | none => ⟨Outcome.err Err.noProvider, st, fresh, []⟩

/-- One step of `GetScoped[V]` (`deps.go` lines 78-125) on scope `id` with
ancestor ids `rest`.  Unlike `Scope.Get` it has no lifetime logic, and it
calls `provider.Create(scope)` with no nil check: a provider registered with a
`nil` `Create` makes it panic (a nil function call), modelled as
`Outcome.panicked`.  `pr` is the parent's recursive result, consulted only in
the delegation branch. -/
def getScopedAt (env : Env) (id : Nat) (rest : List Nat) (st : Store) (key : Ty)
    (fresh : Nat) (pr : ScopedRes) : ScopedRes :=
  match lookupA (st id) key with
  | some v => ⟨Outcome.ok v, st, fresh, []⟩
  | none =>
    match env.providersOf id key with
    | none =>
      match rest with
      | [] => scopedDynFallback env id key st fresh
      | _ :: _ =>
        match pr.out with
        | Outcome.ok _ => pr
        | Outcome.panicked => pr
        | Outcome.err e =>
          if isNoProvider e then
            let dr := scopedDynFallback env id key pr.store pr.fresh
            ⟨dr.out, dr.store, dr.fresh, pr.events ++ dr.events⟩
          else pr
    | some p =>
      match p.create with
      | none => ⟨Outcome.panicked, st, fresh, []⟩
      | some (CreateSpec.fail e) => ⟨Outcome.err e, st, fresh, []⟩
      | some CreateSpec.succeed =>
        ⟨Outcome.ok fresh, updStore st id (setA (st id) key fresh), fresh + 1,
          [Event.created key fresh]⟩

/-- `GetScoped[V](scope)` on the chain of scope ids (head = the receiver). -/
def getScoped (env : Env) : List Nat → Store → Ty → Nat → ScopedRes
  | [], st, _, fresh => ⟨Outcome.err Err.noProvider, st, fresh, []⟩
  | id :: rest, st, key, fresh =>
    getScopedAt env id rest st key fresh (getScoped env rest st key fresh)

/-- `SetScoped[V](scope, value)`: store the constant under `TypeOf[V]`. -/
def setScoped (st : Store) (id : Nat) (key : Ty) (v : Val) : Store :=
  updStore st id (setA (st id) key v)

/-- Input to `Scope.Set`: either a pointer value `*T` (pointing at instance
`v`) or a non-pointer value. -/
inductive SetInput where
  | ptrOf (elemTy : Ty) (v : Val)
  | nonPtr (ty : Ty) (data : Nat)

/-- `Scope.Set(value)` (`deps.go` lines 268-278): a pointer is stored under its
element type; a non-pointer is boxed into a freshly allocated pointer stored
under the value's own type key.  It never returns an error. -/
def scopeSet (st : Store) (id : Nat) (fresh : Nat) :
    SetInput → Option Err × Store × Nat
  | SetInput.ptrOf elemTy v => (none, updStore st id (setA (st id) elemTy v), fresh)
  | SetInput.nonPtr ty _ => (none, updStore st id (setA (st id) ty fresh), fresh + 1)

/-- The shared loop body of `Scope.Free` and `Scope.FreeOnce`: iterate over a
snapshot of the scope's instance keys; a key with a discoverable link is freed
via `link.free` (for `FreeOnce` only if its lifetime is `Once`); a key with no
link is simply deleted.  Errors are collected, never aborting the loop. -/
def freeGo (env : Env) (ch : List Nat) (id : Nat) (onlyOnce : Bool) :
    List (Ty × Val) → Store → Store × List Err × List Event
  | [], st => (st, [], [])
  | (k, _) :: rest, st =>
    match getLink env ch k with
    | some p =>
      if !onlyOnce || isOnce p.lifetime then
        let f := linkFree p k id st
        let r := freeGo env ch id onlyOnce rest f.2.1
        (r.1, f.1.toList ++ r.2.1, f.2.2 ++ r.2.2)
      else freeGo env ch id onlyOnce rest st
    | none => freeGo env ch id onlyOnce rest (updStore st id (eraseA (st id) k))

/-- `Scope.FreeOnce` (`onlyOnce = true`) and `Scope.Free` (`onlyOnce = false`):
run the loop over the scope's instances and wrap collected errors in a
`multiError` when nonempty. -/
def freeWhere (env : Env) (ch : List Nat) (onlyOnce : Bool) (st : Store) :
    Option Err × Store × List Event :=
  match ch with
  | [] => (none, st, [])
  | id :: _ =>
    let r := freeGo env ch id onlyOnce (st id) st
    (match r.2.1 with
     | [] => none
     | errs => some (Err.multi errs), r.1, r.2.2)

/-- `Scope.FreeOnce`. -/
def freeOnce (env : Env) (ch : List Nat) (st : Store) : Option Err × Store × List Event :=
  freeWhere env ch true st

/-- `Scope.Free`. -/
def scopeFree (env : Env) (ch : List Nat) (st : Store) : Option Err × Store × List Event :=
  freeWhere env ch false st

/-- Result of `Scope.hydrateValue`: the error returned (`none` = `nil`), the
updated value behind the hydrated pointer, and the updated engine state. -/
structure HydRes where
  err : Option Err
  val : GoVal
  store : Store
  fresh : Nat
  events : List Event

/-- Result of hydrating a list of addressable sub-slots (struct fields or
array/slice elements). -/
structure HydListRes where
  err : Option Err
  vals : List GoVal
  store : Store
  fresh : Nat
  events : List Event

/-- Result of hydrating a map's entries. -/
structure HydMapRes where
  err : Option Err
  entries : List (Nat × GoVal)
  store : Store
  fresh : Nat
  events : List Event

mutual

/-- `Scope.hydrateValue(ptr)` (`deps.go` lines 386-440): try `Get` on the
slot's type; on success assign the resolved instance into the slot and stop;
on an error other than `ErrNoProvider` return it immediately; on
`ErrNoProvider` leave nil references alone, recurse into struct fields and
array/slice elements, and re-build map entries from hydrated zero values,
returning `nil` at the end. -/
def hydrateValue (env : Env) (ch : List Nat) (st : Store) (gv : GoVal) (fresh : Nat) :
    HydRes :=
  let g := scopeGet env ch st (tyOf gv) fresh
  match g.res with
  | Except.ok v => ⟨none, GoVal.fromInst (tyOf gv) v, g.store, g.fresh, g.events⟩
  | Except.error e =>
    if isNoProvider e then
      match gv with
      | GoVal.prim t d => ⟨none, GoVal.prim t d, g.store, g.fresh, g.events⟩
      | GoVal.fromInst t v => ⟨none, GoVal.fromInst t v, g.store, g.fresh, g.events⟩
      | GoVal.nilRef t => ⟨none, GoVal.nilRef t, g.store, g.fresh, g.events⟩
      | GoVal.ptrVal t v => ⟨none, GoVal.ptrVal t v, g.store, g.fresh, g.events⟩
      | GoVal.structV t fields =>
        let r := hydrateList env ch g.store fields g.fresh
        ⟨r.err, GoVal.structV t r.vals, r.store, r.fresh, g.events ++ r.events⟩
      | GoVal.arrV t elems =>
        let r := hydrateList env ch g.store elems g.fresh
        ⟨r.err, GoVal.arrV t r.vals, r.store, r.fresh, g.events ++ r.events⟩
      | GoVal.mapV t entries zero =>
        let r := hydrateMap env ch g.store entries zero g.fresh
        ⟨r.err, GoVal.mapV t r.entries zero, r.store, r.fresh, g.events ++ r.events⟩
    else ⟨some e, gv, g.store, g.fresh, g.events⟩

/-- The field/element loop of `hydrateValue`: hydrate each addressable slot in
order, aborting on the first error (later slots stay untouched). -/
def hydrateList (env : Env) (ch : List Nat) (st : Store) (gvs : List GoVal) (fresh : Nat) :
    HydListRes :=
  match gvs with
  | [] => ⟨none, [], st, fresh, []⟩
  | gv :: rest =>
    let r := hydrateValue env ch st gv fresh
    match r.err with
    | some e => ⟨some e, r.val :: rest, r.store, r.fresh, r.events⟩
    | none =>
      let rs := hydrateList env ch r.store rest r.fresh
      ⟨rs.err, r.val :: rs.vals, rs.store, rs.fresh, r.events ++ rs.events⟩

/-- The map loop of `hydrateValue`: for each entry, hydrate a fresh zero value
of the map's value type and replace the entry with it (`SetMapIndex`); on
error abort before replacing the current entry. -/
def hydrateMap (env : Env) (ch : List Nat) (st : Store) (entries : List (Nat × GoVal))
    (zero : GoVal) (fresh : Nat) : HydMapRes :=
  match entries with
  | [] => ⟨none, [], st, fresh, []⟩
  | (k, v0) :: rest =>
    let r := hydrateValue env ch st zero fresh
    match r.err with
    | some e => ⟨some e, (k, v0) :: rest, r.store, r.fresh, r.events⟩
    | none =>
      let rs := hydrateMap env ch r.store rest zero r.fresh
      ⟨rs.err, (k, r.val) :: rs.entries, rs.store, rs.fresh, r.events ++ rs.events⟩

end

/-- Input to `Scope.Hydrate`: either a non-pointer (rejected) or a pointer to a
value. -/
inductive HydTarget where
  | notPtr
  | ptrTo (gv : GoVal)

/-- Result of `Scope.Hydrate` (the hydrated value is absent when the argument
was rejected). -/
structure HydrateRes where
  err : Option Err
  val : Option GoVal
  store : Store
  fresh : Nat
  events : List Event

/-- `Scope.Hydrate(value)` (`deps.go` lines 376-383): reject non-pointers with
`ErrNotPointer`, otherwise hydrate the pointed-to value.  It does not call
`FreeOnce`; the caller is expected to. -/
def hydrate (env : Env) (ch : List Nat) (st : Store) (t : HydTarget) (fresh : Nat) :
    HydrateRes :=
  match t with
  | HydTarget.notPtr => ⟨some Err.notPointer, none, st, fresh, []⟩
  | HydTarget.ptrTo gv =>
    let r := hydrateValue env ch st gv fresh
    ⟨r.err, some r.val, r.store, r.fresh, r.events⟩

/-- A function parameter as seen by `Invoke`: a pointer parameter `*elem`
(whose own type key is `ptrTy`), or a by-value parameter whose zero value
(`reflect.New(key)`) is the given template. -/
inductive ParamSpec where
  | byPtr (elem : Ty) (ptrTy : Ty)
  | byVal (zero : GoVal)

/-- Result of `Scope.hydrateType` for one parameter. -/
structure ArgRes where
  err : Option Err
  arg : Arg
  store : Store
  fresh : Nat
  events : List Event

/-- `Scope.hydrateType(key)` (`deps.go` lines 443-453): for a pointer
parameter, `Get` the element type and return the instance pointer unless the
error is `ErrNoProvider`; otherwise (and for non-pointer parameters) hydrate a
fresh zero value of the parameter type and return it. -/
def hydrateType (env : Env) (ch : List Nat) (st : Store) (p : ParamSpec) (fresh : Nat) :
    ArgRes :=
  match p with
  | ParamSpec.byPtr elem ptrTy =>
    let g := scopeGet env ch st elem fresh
    match g.res with
    | Except.ok v => ⟨none, Arg.ptrArg v, g.store, g.fresh, g.events⟩
    | Except.error e =>
      if isNoProvider e then
        let r := hydrateValue env ch g.store (GoVal.nilRef ptrTy) g.fresh
        ⟨r.err, Arg.valArg r.val, r.store, r.fresh, g.events ++ r.events⟩
      else ⟨some e, Arg.ptrArg 0, g.store, g.fresh, g.events⟩
  | ParamSpec.byVal zero =>
    let r := hydrateValue env ch st zero fresh
    ⟨r.err, Arg.valArg r.val, r.store, r.fresh, r.events⟩

/-- Result of resolving all parameters of an invoked function. -/
structure ResolveRes where
  err : Option Err
  args : List Arg
  store : Store
  fresh : Nat
  events : List Event

/-- The argument loop of `Scope.Invoke`: resolve each parameter in declaration
order, aborting on the first error. -/
def resolveArgs (env : Env) (ch : List Nat) : Store → List ParamSpec → Nat → ResolveRes
  | st, [], fresh => ⟨none, [], st, fresh, []⟩
  | st, p :: rest, fresh =>
    let r := hydrateType env ch st p fresh
    match r.err with
    | some e => ⟨some e, [], r.store, r.fresh, r.events⟩
    | none =>
      let rs := resolveArgs env ch r.store rest r.fresh
      ⟨rs.err, r.arg :: rs.args, rs.store, rs.fresh, r.events ++ rs.events⟩

/-- The post-call loop of `Scope.Invoke`: for each pointer argument whose
element type has a provider link registered locally on the invoking scope,
fire `AfterPointerUse`, aborting on the first error. -/
def afterUsePass (env : Env) (id : Nat) (st : Store) : List ParamSpec → Option Err × List Event
  | [] => (none, [])
  | ParamSpec.byVal _ :: rest => afterUsePass env id st rest
  | ParamSpec.byPtr elem _ :: rest =>
    match env.providersOf id elem with
    | none => afterUsePass env id st rest
    | some p =>
      let a := linkAfterPointerUse p elem id st
      match a.1 with
      | some e => (some e, a.2)
      | none =>
        let r := afterUsePass env id st rest
        (r.1, a.2 ++ r.2)

/-- The value passed to `Scope.Invoke`: either not a function, or a function
described by its parameter list (return values are not modelled; the `called`
event records the arguments the function received). -/
inductive FnSpec where
  | notFn
  | fn (params : List ParamSpec)

/-- Result of `Scope.Invoke`: `ok` models `(Result, nil)`. -/
structure InvokeRes where
  res : Except Err Unit
  store : Store
  fresh : Nat
  events : List Event

/-- `Scope.Invoke(fn)` (`deps.go` lines 460-504): reject non-functions with
`ErrNotFunc`; resolve the arguments (aborting on the first error, before the
call); call the function; fire `AfterPointerUse` for pointer arguments with a
locally registered provider (aborting on error); then call `FreeOnce`,
discarding its error, and return the results.  The model treats every resolved
argument as a valid `reflect.Value`, so the `ErrInvalidValue` check passes. -/
def invoke (env : Env) (ch : List Nat) (st : Store) (f : FnSpec) (fresh : Nat) : InvokeRes :=
  match f with
  | FnSpec.notFn => ⟨Except.error Err.notFunc, st, fresh, []⟩
  | FnSpec.fn ps =>
    let a := resolveArgs env ch st ps fresh
    match a.err with
    | some e => ⟨Except.error e, a.store, a.fresh, a.events⟩
    | none =>
      let evCall := a.events ++ [Event.called a.args]
      let apu := afterUsePass env (ch.headD 0) a.store ps
      match apu.1 with
      | some e => ⟨Except.error e, a.store, a.fresh, evCall ++ apu.2⟩
      | none =>
        let fr := freeWhere env ch true a.store
        ⟨Except.ok (), fr.2.1, a.fresh, evCall ++ apu.2 ++ fr.2.2⟩

/-- Discriminator: is this event a `Create` call for type `k`? -/
def isCreateFor (k : Ty) : Event → Bool
  | Event.created k' _ => k' = k
  | _ => false

/-- Discriminator: is this event a `Free` call for type `k`? -/
def isFreeFor (k : Ty) : Event → Bool
  | Event.freed k' _ _ => k' = k
  | _ => false

mutual

/-- Every type key the hydrator's traversal may ask `Get` for inside a value
(for a map, the zero template's keys stand for every entry's). -/
def slotTypes : GoVal → List Ty
  | GoVal.prim t _ => [t]
  | GoVal.fromInst t _ => [t]
  | GoVal.nilRef t => [t]
  | GoVal.ptrVal t _ => [t]
  | GoVal.structV t fields => t :: slotTypesList fields
  | GoVal.arrV t elems => t :: slotTypesList elems
  | GoVal.mapV t _ zero => t :: slotTypes zero

/-- Slot types of a list of sub-slots. -/
def slotTypesList : List GoVal → List Ty
  | [] => []
  | gv :: rest => slotTypes gv ++ slotTypesList rest

end

mutual

/-- True when the value contains no map node (map entries are the one
non-addressable spot the hydrator rebuilds rather than leaves alone). -/
def mapFree : GoVal → Bool
  | GoVal.prim _ _ => true
  | GoVal.fromInst _ _ => true
  | GoVal.nilRef _ => true
  | GoVal.ptrVal _ _ => true
  | GoVal.structV _ fields => mapFreeList fields
  | GoVal.arrV _ elems => mapFreeList elems
  | GoVal.mapV _ _ _ => false

/-- `mapFree` over a list of sub-slots. -/
def mapFreeList : List GoVal → Bool
  | [] => true
  | gv :: rest => mapFree gv && mapFreeList rest

end

/-- The empty store: every scope's instance map is empty. -/
def st0 : Store := fun _ => []

/-- The empty environment: no providers, no dynamic callbacks, no `Dynamic`
types. -/
def env0 : Env := ⟨fun _ _ => none, fun _ => none, fun _ => none⟩

/-- A `Scope`-lifetime provider with a `Create` and a `Free`. -/
def scopedProv : Provider := ⟨Lifetime.scoped, some CreateSpec.succeed, none, some none⟩

/-- A `Forever`-lifetime provider with a `Create`. -/
def forevProv : Provider := ⟨Lifetime.forever, some CreateSpec.succeed, none, none⟩

/-- A `Once`-lifetime provider with a `Create` and a succeeding `Free`. -/
def onceProv : Provider := ⟨Lifetime.once, some CreateSpec.succeed, none, some none⟩

/-- A provider whose `Create` fails with `custom 9`. -/
def failProv : Provider := ⟨Lifetime.forever, some (CreateSpec.fail (Err.custom 9)), none, none⟩

/-- A `Once` provider whose `Free` fails with `custom 7`. -/
def onceFreeErr : Provider :=
  ⟨Lifetime.once, some CreateSpec.succeed, none, some (some (Err.custom 7))⟩

/-- A `Once` provider whose `AfterPointerUse` fails with `custom 8`. -/
def apuErrProv : Provider :=
  ⟨Lifetime.once, some CreateSpec.succeed, some (some (Err.custom 8)), some none⟩

/-- A provider registered with a `nil` `Create` function. -/
def nilCreateProv : Provider := ⟨Lifetime.forever, none, none, none⟩

/-- Fixture for C1: a `Scope`-lifetime provider for key 4 registered on scope 2
(an ancestor of scope 0 through scope 1). -/
def envC1 : Env :=
  ⟨fun i k => if i = 2 ∧ k = 4 then some scopedProv else none, fun _ => none, fun _ => none⟩

/-- Fixture for the C2 counterexample: scope 0 (a child) has a dynamic
callback producing 99; the root scope 1 has nothing. -/
def envC2 : Env :=
  ⟨fun _ _ => none, fun i => if i = 0 then some (fun _ => DynRes.val 99) else none,
    fun _ => none⟩

/-- Fixture for the C2 witness: a `Forever` provider for key 5 on the root
scope 1. -/
def envC2w : Env :=
  ⟨fun i k => if i = 1 ∧ k = 5 then some forevProv else none, fun _ => none, fun _ => none⟩

/-- Fixture for the C3 witness: a `Forever` provider for key 6 on scope 0. -/
def envC3 : Env :=
  ⟨fun i k => if i = 0 ∧ k = 6 then some forevProv else none, fun _ => none, fun _ => none⟩

/-- Fixture for C4: on scope 0, key 1 has a `Once` provider and key 2 a
provider whose `Create` fails. -/
def envC4 : Env :=
  ⟨fun i k =>
    if i = 0 then (if k = 1 then some onceProv else if k = 2 then some failProv else none)
    else none, fun _ => none, fun _ => none⟩

/-- Fixture for C5: on scope 0, key 1 has a `Once` provider whose `Free`
fails and key 3 a `Once` provider whose `AfterPointerUse` fails. -/
def envC5 : Env :=
  ⟨fun i k =>
    if i = 0 then (if k = 1 then some onceFreeErr else if k = 3 then some apuErrProv else none)
    else none, fun _ => none, fun _ => none⟩

/-- Fixture for C6: on scope 0, key 2 has a provider whose `Create` fails;
keys 4 and 7 resolve to nothing. -/
def envC6 : Env :=
  ⟨fun i k => if i = 0 ∧ k = 2 then some failProv else none, fun _ => none, fun _ => none⟩

/-- Fixture for C8: a provider for key 3 on scope 0 registered with a `nil`
`Create`. -/
def envC8 : Env :=
  ⟨fun i k => if i = 0 ∧ k = 3 then some nilCreateProv else none, fun _ => none, fun _ => none⟩

/-- Fixture for the C9 witness, type-capability case: type 5 implements
`Dynamic` and its `ProvideDynamic` succeeds. -/
def envC9a : Env :=
  ⟨fun _ _ => none, fun _ => none, fun k => if k = 5 then some none else none⟩

/-- Fixture for the C9 witness, scope-callback case: the root scope 1 has a
dynamic callback producing 42. -/
def envC9b : Env :=
  ⟨fun _ _ => none, fun i => if i = 1 then some (fun _ => DynRes.val 42) else none,
    fun _ => none⟩

/-- The key resolves with `ErrNoProvider` against this chain and store, for
every value of the allocation counter, without consuming it.  (The store is
then also untouched, by `scopeGet_error_store`.) -/
def Unres (env : Env) (ch : List Nat) (st : Store) (key : Ty) : Prop :=
  ∀ f, (scopeGet env ch st key f).res = Except.error Err.noProvider ∧
    (scopeGet env ch st key f).fresh = f

/-- `Unres` for every key in the list. -/
def UnresAll (env : Env) (ch : List Nat) (st : Store) (keys : List Ty) : Prop :=
  ∀ key ∈ keys, Unres env ch st key

theorem updStore_same (st : Store) (i : Nat) (l : List (Ty × Val)) :
    updStore st i l i = l := by
  simp [updStore]

theorem updStore_other (st : Store) (i j : Nat) (l : List (Ty × Val)) (h : j ≠ i) :
    updStore st i l j = st j := by
  simp [updStore, h]

theorem eraseA_cons (a : Ty × Val) (rest : List (Ty × Val)) (k : Ty) :
    eraseA (a :: rest) k
      = if a.1 = k then eraseA rest k else a :: eraseA rest k := by
  by_cases ha : a.1 = k <;> simp [eraseA, List.filter, ha]

theorem setA_eq (l : List (Ty × Val)) (k : Ty) (v : Val) :
    setA l k v = (k, v) :: eraseA l k := rfl

theorem lookupA_eraseA_self (l : List (Ty × Val)) (k : Ty) :
    lookupA (eraseA l k) k = none := by
  induction l with
  | nil => rfl
  | cons a rest ih =>
    rw [eraseA_cons]
    by_cases ha : a.1 = k
    · rw [if_pos ha]; exact ih
    · rw [if_neg ha]
      simp only [lookupA, ha, if_false]
      exact ih

theorem lookupA_eraseA_ne (l : List (Ty × Val)) (k k' : Ty) (h : k' ≠ k) :
    lookupA (eraseA l k) k' = lookupA l k' := by
  induction l with
  | nil => rfl
  | cons a rest ih =>
    rw [eraseA_cons]
    by_cases ha : a.1 = k
    · rw [if_pos ha]
      have hne : ¬a.1 = k' := by rw [ha]; exact fun hc => h hc.symm
      simp only [lookupA, hne, if_false]
      exact ih
    · rw [if_neg ha]
      by_cases ha' : a.1 = k'
      · simp [lookupA, ha']
      · simp only [lookupA, ha', if_false]
        exact ih

theorem lookupA_eraseA_none (l : List (Ty × Val)) (k k' : Ty)
    (h : lookupA l k' = none) : lookupA (eraseA l k) k' = none := by
  by_cases hk : k' = k
  · rw [hk]; exact lookupA_eraseA_self l k
  · rw [lookupA_eraseA_ne l k k' hk]; exact h

theorem lookupA_setA_self (l : List (Ty × Val)) (k : Ty) (v : Val) :
    lookupA (setA l k v) k = some v := by
  simp [setA_eq, lookupA]

theorem lookupA_setA_ne (l : List (Ty × Val)) (k k' : Ty) (v : Val) (h : k' ≠ k) :
    lookupA (setA l k v) k' = lookupA l k' := by
  have hk : ¬k = k' := fun hc => h hc.symm
  rw [setA_eq]
  simp only [lookupA, hk, if_false]
  exact lookupA_eraseA_ne l k k' h

theorem lookupA_some_mem (l : List (Ty × Val)) (k : Ty) (v : Val)
    (h : lookupA l k = some v) : (k, v) ∈ l := by
  induction l with
  | nil => simp [lookupA] at h
  | cons a rest ih =>
    by_cases ha : a.1 = k
    · simp only [lookupA, ha, if_true] at h
      have : a = (k, v) := by
        cases a with
        | mk a1 a2 =>
          cases h
          simp_all
      rw [this]
      exact List.mem_cons_self _ _
    · simp only [lookupA, ha, if_false] at h
      exact List.mem_cons_of_mem _ (ih h)

theorem eraseA_key_not_mem (l : List (Ty × Val)) (k : Ty) :
    k ∉ (eraseA l k).map Prod.fst := by
  intro hmem
  rcases List.mem_map.1 hmem with ⟨p, hp, hfst⟩
  rcases List.mem_filter.1 hp with ⟨_, hq⟩
  rw [hfst] at hq
  simp at hq

theorem getLink_prepend (env : Env) (key : Ty) :
    ∀ (pre ch : List Nat), (∀ i ∈ pre, env.providersOf i key = none) →
      getLink env (pre ++ ch) key = getLink env ch key := by
  intro pre
  induction pre with
  | nil => intro ch _; rfl
  | cons i rest ih =>
    intro ch h
    have hi : env.providersOf i key = none := h i (List.mem_cons_self _ _)
    have hrest : ∀ j ∈ rest, env.providersOf j key = none :=
      fun j hj => h j (List.mem_cons_of_mem _ hj)
    simp only [List.cons_append, getLink, hi]
    exact ih ch hrest

theorem getLink_none (env : Env) (key : Ty) :
    ∀ (ch : List Nat), (∀ i ∈ ch, env.providersOf i key = none) →
      getLink env ch key = none := by
  intro ch
  induction ch with
  | nil => intro _; rfl
  | cons i rest ih =>
    intro h
    have hi : env.providersOf i key = none := h i (List.mem_cons_self _ _)
    simp only [getLink, hi]
    exact ih fun j hj => h j (List.mem_cons_of_mem _ hj)

theorem linkFree_store (p : Provider) (k : Ty) (id : Nat) (st : Store) :
    (linkFree p k id st).2.1 = updStore st id (eraseA (st id) k) := by
  cases hf : p.free <;> simp [linkFree, hf]

theorem freeGo_store_other (env : Env) (ch : List Nat) (id : Nat) (oo : Bool) :
    ∀ (pending : List (Ty × Val)) (st : Store) (j : Nat), j ≠ id →
      (freeGo env ch id oo pending st).1 j = st j := by
  intro pending
  induction pending with
  | nil => intro st j _; rfl
  | cons a rest ih =>
    intro st j h
    obtain ⟨k, v⟩ := a
    cases hl : getLink env ch k with
    | none =>
      simp only [freeGo, hl]
      rw [ih _ j h, updStore_other _ _ _ _ h]
    | some p =>
      cases hb : (!oo || isOnce p.lifetime) with
      | false =>
        simp only [freeGo, hl]
        rw [if_neg (by simp [hb])]
        exact ih st j h
      | true =>
        simp only [freeGo, hl]
        rw [if_pos hb]
        show (freeGo env ch id oo rest (linkFree p k id st).2.1).1 j = st j
        rw [ih _ j h, linkFree_store, updStore_other _ _ _ _ h]

theorem freeGo_absent (env : Env) (ch : List Nat) (id : Nat) (oo : Bool) (k : Ty) :
    ∀ (pending : List (Ty × Val)) (st : Store), lookupA (st id) k = none →
      lookupA ((freeGo env ch id oo pending st).1 id) k = none := by
  intro pending
  induction pending with
  | nil => intro st h; exact h
  | cons a rest ih =>
    intro st h
    obtain ⟨k', v'⟩ := a
    cases hl : getLink env ch k' with
    | none =>
      simp only [freeGo, hl]
      refine ih _ ?_
      rw [updStore_same]
      exact lookupA_eraseA_none _ _ _ h
    | some p =>
      cases hb : (!oo || isOnce p.lifetime) with
      | false =>
        simp only [freeGo, hl]
        rw [if_neg (by simp [hb])]
        exact ih st h
      | true =>
        simp only [freeGo, hl]
        rw [if_pos hb]
        show lookupA ((freeGo env ch id oo rest (linkFree p k' id st).2.1).1 id) k = none
        refine ih _ ?_
        rw [linkFree_store, updStore_same]
        exact lookupA_eraseA_none _ _ _ h

theorem freeGo_keep (env : Env) (ch : List Nat) (id : Nat) (k : Ty) (p : Provider)
    (hp : getLink env ch k = some p) (honce : isOnce p.lifetime = false) :
    ∀ (pending : List (Ty × Val)) (st : Store),
      lookupA ((freeGo env ch id true pending st).1 id) k = lookupA (st id) k := by
  intro pending
  induction pending with
  | nil => intro st; rfl
  | cons a rest ih =>
    intro st
    obtain ⟨k', v'⟩ := a
    by_cases hkk : k' = k
    · subst hkk
      simp only [freeGo, hp]
      rw [if_neg (by simp [honce])]
      exact ih st
    · have hne : k ≠ k' := fun hc => hkk hc.symm
      cases hl : getLink env ch k' with
      | none =>
        simp only [freeGo, hl]
        rw [ih _, updStore_same]
        exact lookupA_eraseA_ne _ _ _ hne
      | some q =>
        cases hb : (!true || isOnce q.lifetime) with
        | false =>
          have hb2 : isOnce q.lifetime = false := by simpa using hb
          simp only [freeGo, hl]
          rw [if_neg (by simp [hb2])]
          exact ih st
        | true =>
          simp only [freeGo, hl]
          rw [if_pos hb]
          show lookupA ((freeGo env ch id true rest (linkFree q k' id st).2.1).1 id) k
            = lookupA (st id) k
          rw [ih _, linkFree_store, updStore_same]
          exact lookupA_eraseA_ne _ _ _ hne

theorem freeGo_linkless (env : Env) (ch : List Nat) (id : Nat) (oo : Bool) (k : Ty)
    (hnl : getLink env ch k = none) :
    ∀ (pending : List (Ty × Val)) (st : Store),
      (lookupA (st id) k = none ∨ ∃ v, (k, v) ∈ pending) →
      lookupA ((freeGo env ch id oo pending st).1 id) k = none := by
  intro pending
  induction pending with
  | nil =>
    intro st h
    rcases h with h | ⟨v, hv⟩
    · exact h
    · simp at hv
  | cons a rest ih =>
    intro st h
    obtain ⟨k', v'⟩ := a
    by_cases hkk : k' = k
    · subst hkk
      simp only [freeGo, hnl]
      refine freeGo_absent env ch id oo k' rest _ ?_
      rw [updStore_same]
      exact lookupA_eraseA_self _ _
    · have hne : k ≠ k' := fun hc => hkk hc.symm
      have hmemrest : (∃ v, (k, v) ∈ (k', v') :: rest) → ∃ v, (k, v) ∈ rest := by
        rintro ⟨v, hv⟩
        rcases List.mem_cons.1 hv with heq | hm
        · exact absurd (congrArg Prod.fst heq) hne
        · exact ⟨v, hm⟩
      cases hl : getLink env ch k' with
      | none =>
        simp only [freeGo, hl]
        refine ih _ ?_
        rcases h with hnone | hex
        · left
          rw [updStore_same, lookupA_eraseA_ne _ _ _ hne]
          exact hnone
        · exact Or.inr (hmemrest hex)
      | some q =>
        cases hb : (!oo || isOnce q.lifetime) with
        | false =>
          simp only [freeGo, hl]
          rw [if_neg (by simp [hb])]
          refine ih _ ?_
          rcases h with hnone | hex
          · exact Or.inl hnone
          · exact Or.inr (hmemrest hex)
        | true =>
          simp only [freeGo, hl]
          rw [if_pos hb]
          show lookupA ((freeGo env ch id oo rest (linkFree q k' id st).2.1).1 id) k = none
          refine ih _ ?_
          rcases h with hnone | hex
          · left
            rw [linkFree_store, updStore_same, lookupA_eraseA_ne _ _ _ hne]
            exact hnone
          · exact Or.inr (hmemrest hex)

theorem freeGo_freed_haslink (env : Env) (ch : List Nat) (id : Nat) (oo : Bool)
    (k : Ty) (v : Val) (r : Option Err) :
    ∀ (pending : List (Ty × Val)) (st : Store),
      Event.freed k v r ∈ (freeGo env ch id oo pending st).2.2 →
      ∃ p, getLink env ch k = some p := by
  intro pending
  induction pending with
  | nil => intro st h; simp [freeGo] at h
  | cons a rest ih =>
    intro st h
    obtain ⟨k', v'⟩ := a
    cases hl : getLink env ch k' with
    | none =>
      simp only [freeGo, hl] at h
      exact ih _ h
    | some q =>
      cases hb : (!oo || isOnce q.lifetime) with
      | false =>
        simp only [freeGo, hl] at h
        rw [if_neg (by simp [hb])] at h
        exact ih _ h
      | true =>
        simp only [freeGo, hl] at h
        rw [if_pos hb] at h
        have h2 : Event.freed k v r ∈
            (linkFree q k' id st).2.2
              ++ (freeGo env ch id oo rest (linkFree q k' id st).2.1).2.2 := h
        rcases List.mem_append.1 h2 with hf | hrec
        · cases hq : q.free with
          | none => simp [linkFree, hq] at hf
          | some r2 =>
            simp only [linkFree, hq, List.mem_singleton] at hf
            cases hf
            exact ⟨q, hl⟩
        · exact ih _ hrec

theorem freeGo_filter_create (env : Env) (ch : List Nat) (id : Nat) (oo : Bool) (k : Ty) :
    ∀ (pending : List (Ty × Val)) (st : Store),
      ((freeGo env ch id oo pending st).2.2.filter (isCreateFor k)) = [] := by
  intro pending
  induction pending with
  | nil => intro st; rfl
  | cons a rest ih =>
    intro st
    obtain ⟨k', v'⟩ := a
    cases hl : getLink env ch k' with
    | none => simp only [freeGo, hl]; exact ih _
    | some q =>
      cases hb : (!oo || isOnce q.lifetime) with
      | false =>
        simp only [freeGo, hl]
        rw [if_neg (by simp [hb])]
        exact ih _
      | true =>
        simp only [freeGo, hl]
        rw [if_pos hb]
        show ((linkFree q k' id st).2.2
            ++ (freeGo env ch id oo rest (linkFree q k' id st).2.1).2.2).filter
              (isCreateFor k) = []
        rw [List.filter_append]
        cases hq : q.free with
        | none => simp [linkFree, hq, ih]
        | some r2 => simp [linkFree, hq, isCreateFor, ih]

theorem freeGo_filter_free_notmem (env : Env) (ch : List Nat) (id : Nat) (oo : Bool)
    (k : Ty) :
    ∀ (pending : List (Ty × Val)) (st : Store), k ∉ pending.map Prod.fst →
      ((freeGo env ch id oo pending st).2.2.filter (isFreeFor k)) = [] := by
  intro pending
  induction pending with
  | nil => intro st _; rfl
  | cons a rest ih =>
    intro st hk
    obtain ⟨k', v'⟩ := a
    have hkk : ¬(k' = k) := by
      intro hc
      exact hk (by simp [hc])
    have hrest : k ∉ rest.map Prod.fst := by
      intro hc
      exact hk (List.mem_cons_of_mem _ hc)
    cases hl : getLink env ch k' with
    | none => simp only [freeGo, hl]; exact ih _ hrest
    | some q =>
      cases hb : (!oo || isOnce q.lifetime) with
      | false =>
        simp only [freeGo, hl]
        rw [if_neg (by simp [hb])]
        exact ih _ hrest
      | true =>
        simp only [freeGo, hl]
        rw [if_pos hb]
        show ((linkFree q k' id st).2.2
            ++ (freeGo env ch id oo rest (linkFree q k' id st).2.1).2.2).filter
              (isFreeFor k) = []
        rw [List.filter_append]
        cases hq : q.free with
        | none => simp [linkFree, hq, ih _ hrest]
        | some r2 => simp [linkFree, hq, isFreeFor, hkk, ih _ hrest]

theorem linkGet_error (p : Provider) (key : Ty) (id : Nat) (st : Store) (fresh : Nat)
    (e : Err) (h : (linkGet p key id st fresh).res = Except.error e) :
    (linkGet p key id st fresh).store = st ∧ (linkGet p key id st fresh).fresh = fresh := by
  cases hi : lookupA (st id) key with
  | some v =>
    simp only [linkGet, hi] at h
    exact Except.noConfusion h
  | none =>
    cases hc : p.create with
    | none => simp [linkGet, hi, hc]
    | some cs =>
      cases cs with
      | fail e2 => simp [linkGet, hi, hc]
      | succeed =>
        simp only [linkGet, hi, hc] at h
        exact Except.noConfusion h

theorem dynFallback_error (env : Env) (id : Nat) (key : Ty) (st : Store) (fresh : Nat)
    (e : Err) (h : (dynFallback env id key st fresh).res = Except.error e) :
    (dynFallback env id key st fresh).store = st := by
  cases hd : env.dynTypes key with
  | some pd =>
    cases pd with
    | some e2 => simp [dynFallback, hd]
    | none =>
      simp only [dynFallback, hd] at h
      exact Except.noConfusion h
  | none =>
    cases hcb : env.dynCbOf id with
    | none => simp [dynFallback, hd, hcb]
    | some cb =>
      cases hr : cb key with
      | err e2 => simp [dynFallback, hd, hcb, hr]
      | nope => simp [dynFallback, hd, hcb, hr]
      | val v =>
        simp only [dynFallback, hd, hcb, hr] at h
        exact Except.noConfusion h

theorem scopeGet_cons (env : Env) (id : Nat) (rest : List Nat) (st : Store)
    (key : Ty) (fresh : Nat) :
    scopeGet env (id :: rest) st key fresh
      = scopeGetAt env id rest st key fresh (scopeGet env rest st key fresh) := rfl

theorem getScoped_cons (env : Env) (id : Nat) (rest : List Nat) (st : Store)
    (key : Ty) (fresh : Nat) :
    getScoped env (id :: rest) st key fresh
      = getScopedAt env id rest st key fresh (getScoped env rest st key fresh) := rfl

theorem scopeGet_error_store (env : Env) :
    ∀ (ch : List Nat) (st : Store) (key : Ty) (fresh : Nat) (e : Err),
      (scopeGet env ch st key fresh).res = Except.error e →
      (scopeGet env ch st key fresh).store = st := by
  intro ch
  induction ch with
  | nil => intro st key fresh e _; rfl
  | cons id rest ih =>
    intro st key fresh e h
    rw [scopeGet_cons] at h ⊢
    cases hi : lookupA (st id) key with
    | some v =>
      simp only [scopeGetAt, hi] at h
      exact Except.noConfusion h
    | none =>
      cases hs : scopedLink (getLink env (id :: rest) key) with
      | some deep =>
        simp only [scopeGetAt, hi, hs] at h ⊢
        exact (linkGet_error _ _ _ _ _ _ h).1
      | none =>
        cases hp : env.providersOf id key with
        | some p =>
          simp only [scopeGetAt, hi, hs, hp] at h ⊢
          exact (linkGet_error _ _ _ _ _ _ h).1
        | none =>
          cases rest with
          | nil =>
            simp only [scopeGetAt, hi, hs, hp] at h ⊢
            exact dynFallback_error _ _ _ _ _ _ h
          | cons pid prest =>
            simp only [scopeGetAt, hi, hs, hp] at h ⊢
            cases hr : (scopeGet env (pid :: prest) st key fresh).res with
            | ok v =>
              simp only [hr] at h ⊢
              exact Except.noConfusion h
            | error e2 =>
              simp only [hr] at h ⊢
              by_cases hne : isNoProvider e2 = true
              · rw [if_pos hne] at h ⊢
                have hps : (scopeGet env (pid :: prest) st key fresh).store = st :=
                  ih st key fresh e2 hr
                rw [hps] at h ⊢
                exact dynFallback_error _ _ _ _ _ _ h
              · rw [if_neg hne] at h ⊢
                exact ih st key fresh e h

/-- C7 counterexample: `Scope.Set` given the non-pointer value `Port(8080)`
(modelled as `SetInput.nonPtr 3 5`) does not fail with `ErrNotPointer` — it
returns no error at all, and stores a freshly boxed pointer under the value's
own type key (exactly what `TestArray` in `deps_test.go` relies on). -/
theorem c7_set_nonpointer_cex :
    (scopeSet st0 0 0 (SetInput.nonPtr 3 5)).1 = none ∧
    (scopeSet st0 0 0 (SetInput.nonPtr 3 5)).1 ≠ some Err.notPointer ∧
    (scopeSet st0 0 0 (SetInput.nonPtr 3 5)).2.1 0 = [(3, 0)] := by
  refine ⟨rfl, ?_, rfl⟩
  intro h
  exact Option.noConfusion h

/-- C7 amended: `Scope.Set` never returns an error.  A pointer value is stored
under its element type; a non-pointer value is boxed into a freshly allocated
pointer and stored under the value's own type key (`ErrNotPointer` is produced
by `Hydrate`, not by `Scope.Set`). -/
theorem c7_set_never_fails_amended (st : Store) (id : Nat) (fresh : Nat) (inp : SetInput) :
    (scopeSet st id fresh inp).1 = none ∧
    (∀ ety v, inp = SetInput.ptrOf ety v →
      (scopeSet st id fresh inp).2.1 id = setA (st id) ety v) ∧
    (∀ t d, inp = SetInput.nonPtr t d →
      (scopeSet st id fresh inp).2.1 id = setA (st id) t fresh) := by
  cases inp with
  | ptrOf ety v =>
    refine ⟨rfl, ?_, ?_⟩
    · intro ety2 v2 hin
      cases hin
      simp [scopeSet, updStore_same]
    · intro t d hin
      exact SetInput.noConfusion hin
  | nonPtr t d =>
    refine ⟨rfl, ?_, ?_⟩
    · intro ety2 v2 hin
      exact SetInput.noConfusion hin
    · intro t2 d2 hin
      cases hin
      simp [scopeSet, updStore_same]

/-- C7 witness: the amended theorem applied to a concrete non-pointer input. -/
theorem c7_set_never_fails_amended_w :
    (scopeSet st0 0 0 (SetInput.nonPtr 3 5)).1 = none ∧
    (scopeSet st0 0 0 (SetInput.nonPtr 3 5)).2.1 0 = setA (st0 0) 3 0 :=
  ⟨(c7_set_never_fails_amended st0 0 0 (SetInput.nonPtr 3 5)).1,
    (c7_set_never_fails_amended st0 0 0 (SetInput.nonPtr 3 5)).2.2 3 5 rfl⟩

/-- C8: a provider registered with a `nil` `Create` (for key 3 on scope 0) is
reported as `ErrMissingCreate` by `Scope.Get`, but `GetScoped` on the same
scope calls `provider.Create` without a nil check and panics (a nil function
call) instead of reporting the failure. -/
theorem c8_missing_create_panic :
    (scopeGet envC8 [0] st0 3 0).res = Except.error Err.missingCreate ∧
    (getScoped envC8 [0] st0 3 0).out = Outcome.panicked := by
  exact ⟨rfl, rfl⟩

/-- C10 counterexample: after `SetScoped` of a constant (key 5) on a scope with
no providers, an `Invoke` of a non-function fails with `ErrNotFunc` and leaves
the constant cached — so it is not true that the constant is gone after any
`Invoke`; only an `Invoke` that reaches its ending `FreeOnce` removes it. -/
theorem c10_failed_invoke_keeps_constant_cex :
    (invoke env0 [0] (setScoped st0 0 5 7) FnSpec.notFn 0).res = Except.error Err.notFunc ∧
    (invoke env0 [0] (setScoped st0 0 5 7) FnSpec.notFn 0).store 0 = [(5, 7)] := by
  exact ⟨rfl, rfl⟩

/-- C10 amended: `FreeOnce` removes from the scope's instance map every cached
instance whose type has no provider link on the scope or any ancestor
(including constants stored with `Set`), invoking no `Free` callback for them;
and since `Invoke` ends by calling `FreeOnce` on the invoking scope, after any
`Invoke` that reaches that release step (equivalently, any `Invoke` that
returns without error) such provider-less constants are no longer cached. -/
theorem c10_freeonce_drops_linkless_amended (env : Env) (id : Nat) (rest : List Nat)
    (st : Store) (k : Ty) (hnl : getLink env (id :: rest) k = none) :
    (lookupA ((freeOnce env (id :: rest) st).2.1 id) k = none ∧
      ∀ v r, Event.freed k v r ∉ (freeOnce env (id :: rest) st).2.2) ∧
    (∀ f fresh, (invoke env (id :: rest) st f fresh).res = Except.ok () →
      lookupA ((invoke env (id :: rest) st f fresh).store id) k = none) := by
  have hfo : ∀ (st2 : Store),
      lookupA ((freeWhere env (id :: rest) true st2).2.1 id) k = none := by
    intro st2
    show lookupA ((freeGo env (id :: rest) id true (st2 id) st2).1 id) k = none
    cases hl : lookupA (st2 id) k with
    | none => exact freeGo_linkless env _ id true k hnl _ _ (Or.inl hl)
    | some v =>
      exact freeGo_linkless env _ id true k hnl _ _ (Or.inr ⟨v, lookupA_some_mem _ _ _ hl⟩)
  constructor
  · constructor
    · exact hfo st
    · intro v r hmem
      have hev : Event.freed k v r ∈ (freeGo env (id :: rest) id true (st id) st).2.2 := hmem
      rcases freeGo_freed_haslink env _ id true k v r _ _ hev with ⟨p, hp⟩
      rw [hnl] at hp
      exact Option.noConfusion hp
  · intro f fresh hok
    cases f with
    | notFn => exact Except.noConfusion hok
    | fn ps =>
      simp only [invoke] at hok ⊢
      cases ha : (resolveArgs env (id :: rest) st ps fresh).err with
      | some e =>
        rw [ha] at hok
        exact Except.noConfusion hok
      | none =>
        rw [ha] at hok
        cases hap : (afterUsePass env ((id :: rest).headD 0)
            (resolveArgs env (id :: rest) st ps fresh).store ps).1 with
        | some e =>
          rw [hap] at hok
          exact Except.noConfusion hok
        | none => exact hfo _

/-- C10 witness: the amended theorem at a concrete constant (key 5 set on
scope 0 with no providers anywhere): `FreeOnce` drops it, and so does a
successful `Invoke` of a parameterless function. -/
theorem c10_freeonce_drops_linkless_amended_w :
    lookupA ((freeOnce env0 [0] (setScoped st0 0 5 7)).2.1 0) 5 = none ∧
    lookupA ((invoke env0 [0] (setScoped st0 0 5 7) (FnSpec.fn []) 0).store 0) 5 = none :=
  ⟨(c10_freeonce_drops_linkless_amended env0 0 [] (setScoped st0 0 5 7) 5 rfl).1.1,
    (c10_freeonce_drops_linkless_amended env0 0 [] (setScoped st0 0 5 7) 5 rfl).2
      (FnSpec.fn []) 0 rfl⟩

/-- C2 counterexample: with a root scope 1 that resolves nothing and a child
scope 0 carrying a `Dynamic` callback, `Get` for key 7 on the child returns
the callback's value 99 while the parent's own `Get` fails with
`ErrNoProvider` — the child does not return the parent's result, and the
dynamic fallback ran at the child (a scope with a parent), not only at the
root. -/
theorem c2_dynamic_fallback_not_root_cex :
    (scopeGet envC2 [1] st0 7 0).res = Except.error Err.noProvider ∧
    (scopeGet envC2 [0, 1] st0 7 0).res = Except.ok 99 ∧
    (scopeGet envC2 [0, 1] st0 7 0).events = [Event.dynCall 7] :=
  ⟨rfl, rfl, rfl⟩

/-- C2 amended: with no cached instance, no `Scope`-lifetime link in the
chain, and no local provider, `Get` delegates to the parent and returns
exactly the parent's result whenever that result is a value or a failure
other than `NoProvider`; but when the parent chain fails with `NoProvider`,
the requesting scope then attempts the dynamic fallback itself — the fallback
runs at every scope on the unwind from the root, not only at the root. -/
theorem c2_parent_delegation_amended (env : Env) (id pid : Nat) (prest : List Nat)
    (st : Store) (key : Ty) (fresh : Nat)
    (hinst : lookupA (st id) key = none)
    (hdeep : ∀ p, getLink env (id :: pid :: prest) key = some p →
      p.lifetime ≠ Lifetime.scoped)
    (hloc : env.providersOf id key = none) :
    (∀ v, (scopeGet env (pid :: prest) st key fresh).res = Except.ok v →
      scopeGet env (id :: pid :: prest) st key fresh
        = scopeGet env (pid :: prest) st key fresh) ∧
    (∀ e, (scopeGet env (pid :: prest) st key fresh).res = Except.error e →
      isNoProvider e = false →
      scopeGet env (id :: pid :: prest) st key fresh
        = scopeGet env (pid :: prest) st key fresh) ∧
    (∀ e, (scopeGet env (pid :: prest) st key fresh).res = Except.error e →
      isNoProvider e = true →
      scopeGet env (id :: pid :: prest) st key fresh
        = ⟨(dynFallback env id key (scopeGet env (pid :: prest) st key fresh).store
              (scopeGet env (pid :: prest) st key fresh).fresh).res,
           (dynFallback env id key (scopeGet env (pid :: prest) st key fresh).store
              (scopeGet env (pid :: prest) st key fresh).fresh).store,
           (dynFallback env id key (scopeGet env (pid :: prest) st key fresh).store
              (scopeGet env (pid :: prest) st key fresh).fresh).fresh,
           (scopeGet env (pid :: prest) st key fresh).events
             ++ (dynFallback env id key (scopeGet env (pid :: prest) st key fresh).store
                  (scopeGet env (pid :: prest) st key fresh).fresh).events⟩) := by
  have hsl : scopedLink (getLink env (id :: pid :: prest) key) = none := by
    cases hg : getLink env (id :: pid :: prest) key with
    | none => rfl
    | some p =>
      have hlt := hdeep p hg
      simp [scopedLink, hlt]
  refine ⟨?_, ?_, ?_⟩
  · intro v hr
    rw [scopeGet_cons]
    simp only [scopeGetAt, hinst, hsl, hloc, hr]
  · intro e hr hne
    rw [scopeGet_cons]
    simp only [scopeGetAt, hinst, hsl, hloc, hr]
    rw [if_neg (by simp [hne])]
  · intro e hr hne
    rw [scopeGet_cons]
    simp only [scopeGetAt, hinst, hsl, hloc, hr]
    rw [if_pos hne]

/-- C2 witness: the amended theorem applied with a `Forever` provider for key
5 on the root scope 1: the child's `Get` equals the root's `Get` exactly. -/
theorem c2_parent_delegation_amended_w :
    scopeGet envC2w [0, 1] st0 5 0 = scopeGet envC2w [1] st0 5 0 :=
  (c2_parent_delegation_amended envC2w 0 1 [] st0 5 0 rfl
    (fun p hp => by
      have hpe : forevProv = p := Option.some.inj hp
      rw [← hpe]
      decide)
    rfl).1 0 rfl

/-- C3 counterexample: a constant set with `SetScoped` (key 5, pointer 77) on
a scope with no providers is returned by `GetScoped` before an `Invoke`, but
a successful `Invoke` of a parameterless function in between removes it (its
ending `FreeOnce` deletes link-less instances), after which `GetScoped` fails
with `ErrNoProvider` instead of returning the same pointer. -/
theorem c3_constant_dropped_by_invoke_cex :
    (getScoped env0 [0] (setScoped st0 0 5 77) 5 0).out = Outcome.ok 77 ∧
    (getScoped env0 [0]
        (invoke env0 [0] (setScoped st0 0 5 77) (FnSpec.fn []) 0).store 5 0).out
      = Outcome.err Err.noProvider :=
  ⟨rfl, rfl⟩

/-- C3 amended: after `SetScoped(s, &v)`, `GetScoped[T](s)` returns that exact
pointer on every call (the state is untouched, so repeated calls agree), and
`Invoke` on `s` of a function taking `*T` or `T` receives that same instance;
identity across an intervening `Invoke` additionally holds whenever `T` has a
provider link discoverable from `s` whose lifetime is not `Once` — without
such a link, the `Invoke`'s ending `FreeOnce` removes the constant (see the
counterexample). -/
theorem c3_set_get_identity_amended (env : Env) (id : Nat) (rest : List Nat)
    (st : Store) (key kp : Ty) (v : Val) (d fresh : Nat) :
    (getScoped env (id :: rest) (setScoped st id key v) key fresh
      = ⟨Outcome.ok v, setScoped st id key v, fresh, []⟩) ∧
    (Event.called [Arg.ptrArg v] ∈
      (invoke env (id :: rest) (setScoped st id key v)
        (FnSpec.fn [ParamSpec.byPtr key kp]) fresh).events) ∧
    (Event.called [Arg.valArg (GoVal.fromInst key v)] ∈
      (invoke env (id :: rest) (setScoped st id key v)
        (FnSpec.fn [ParamSpec.byVal (GoVal.prim key d)]) fresh).events) ∧
    (∀ p, getLink env (id :: rest) key = some p → isOnce p.lifetime = false →
      lookupA ((invoke env (id :: rest) (setScoped st id key v)
          (FnSpec.fn [ParamSpec.byPtr key kp]) fresh).store id) key = some v) := by
  have hlk : lookupA (setScoped st id key v id) key = some v := by
    show lookupA (updStore st id (setA (st id) key v) id) key = some v
    rw [updStore_same]
    exact lookupA_setA_self _ _ _
  have hget : scopeGet env (id :: rest) (setScoped st id key v) key fresh
      = ⟨Except.ok v, setScoped st id key v, fresh, []⟩ := by
    rw [scopeGet_cons]
    simp only [scopeGetAt, hlk]
  have hres : resolveArgs env (id :: rest) (setScoped st id key v)
      [ParamSpec.byPtr key kp] fresh
      = ⟨none, [Arg.ptrArg v], setScoped st id key v, fresh, []⟩ := by
    simp only [resolveArgs, hydrateType, hget]
    rfl
  refine ⟨?_, ?_, ?_, ?_⟩
  · rw [getScoped_cons]
    simp only [getScopedAt, hlk]
  · simp only [invoke, hres]
    cases hap : (afterUsePass env ((id :: rest).headD 0) (setScoped st id key v)
        [ParamSpec.byPtr key kp]).1 with
    | some e => simp
    | none => simp
  · have hhv : hydrateValue env (id :: rest) (setScoped st id key v)
        (GoVal.prim key d) fresh
        = ⟨none, GoVal.fromInst key v, setScoped st id key v, fresh, []⟩ := by
      simp only [hydrateValue, tyOf, hget]
    have hres2 : resolveArgs env (id :: rest) (setScoped st id key v)
        [ParamSpec.byVal (GoVal.prim key d)] fresh
        = ⟨none, [Arg.valArg (GoVal.fromInst key v)], setScoped st id key v, fresh, []⟩ := by
      simp only [resolveArgs, hydrateType, hhv]
      rfl
    simp only [invoke, hres2]
    cases hap : (afterUsePass env ((id :: rest).headD 0) (setScoped st id key v)
        [ParamSpec.byVal (GoVal.prim key d)]).1 with
    | some e => simp
    | none => simp
  · intro p hp honce
    simp only [invoke, hres]
    cases hap : (afterUsePass env ((id :: rest).headD 0) (setScoped st id key v)
        [ParamSpec.byPtr key kp]).1 with
    | some e => exact hlk
    | none =>
      show lookupA ((freeWhere env (id :: rest) true (setScoped st id key v)).2.1 id) key
        = some v
      show lookupA ((freeGo env (id :: rest) id true (setScoped st id key v id)
          (setScoped st id key v)).1 id) key = some v
      rw [freeGo_keep env (id :: rest) id key p hp honce]
      exact hlk

/-- C3 witness: the amended theorem with a `Forever` provider for key 6 on
scope 0: the constant is identity-stable and survives an `Invoke`. -/
theorem c3_set_get_identity_amended_w :
    (getScoped envC3 [0] (setScoped st0 0 6 9) 6 0
      = ⟨Outcome.ok 9, setScoped st0 0 6 9, 0, []⟩) ∧
    lookupA ((invoke envC3 [0] (setScoped st0 0 6 9)
        (FnSpec.fn [ParamSpec.byPtr 6 11]) 0).store 0) 6 = some 9 :=
  ⟨(c3_set_get_identity_amended envC3 0 [] st0 6 11 9 0 0).1,
    (c3_set_get_identity_amended envC3 0 [] st0 6 11 9 0 0).2.2.2 forevProv rfl rfl⟩

/-- C1: a `Scope`-lifetime provider registered on the ancestor `ancId` and not
shadowed below it resolves, via `Scope.Get` on the descendant `childId`
holding no cached instance for the key, by calling the provider's `Create`
and caching the new instance in the descendant's instance map; every other
scope's instance map (in particular the ancestor's) is untouched; and freeing
the descendant with `Scope.Free` invokes the provider's `Free` on exactly
that instance. -/
theorem c1_scope_lifetime_on_descendant (env : Env) (st : Store)
    (childId ancId : Nat) (mid rest : List Nat) (key : Ty) (fresh : Nat)
    (p : Provider) (fres : Option Err)
    (hni : lookupA (st childId) key = none)
    (hmid : ∀ i ∈ childId :: mid, env.providersOf i key = none)
    (hanc : env.providersOf ancId key = some p)
    (hlt : p.lifetime = Lifetime.scoped)
    (hcr : p.create = some CreateSpec.succeed)
    (hfr : p.free = some fres) :
    (scopeGet env (childId :: (mid ++ ancId :: rest)) st key fresh).res
      = Except.ok fresh ∧
    (scopeGet env (childId :: (mid ++ ancId :: rest)) st key fresh).store childId
      = setA (st childId) key fresh ∧
    (∀ j, j ≠ childId →
      (scopeGet env (childId :: (mid ++ ancId :: rest)) st key fresh).store j = st j) ∧
    (scopeGet env (childId :: (mid ++ ancId :: rest)) st key fresh).events
      = [Event.created key fresh] ∧
    (scopeFree env (childId :: (mid ++ ancId :: rest))
        (scopeGet env (childId :: (mid ++ ancId :: rest)) st key fresh).store).2.2.head?
      = some (Event.freed key fresh fres) := by
  have hgl : getLink env (childId :: (mid ++ ancId :: rest)) key = some p := by
    have hsplit : childId :: (mid ++ ancId :: rest)
        = (childId :: mid) ++ (ancId :: rest) := by simp
    rw [hsplit, getLink_prepend env key (childId :: mid) _ hmid]
    simp only [getLink, hanc]
  have hsl : scopedLink (getLink env (childId :: (mid ++ ancId :: rest)) key)
      = some p := by
    rw [hgl]
    simp [scopedLink, hlt]
  have hmain : scopeGet env (childId :: (mid ++ ancId :: rest)) st key fresh
      = ⟨Except.ok fresh, updStore st childId (setA (st childId) key fresh), fresh + 1,
          [Event.created key fresh]⟩ := by
    rw [scopeGet_cons]
    simp only [scopeGetAt, hni, hsl, linkGet, hcr]
  refine ⟨by rw [hmain], ?_, ?_, by rw [hmain], ?_⟩
  · rw [hmain]
    exact updStore_same _ _ _
  · intro j hj
    rw [hmain]
    exact updStore_other _ _ _ _ hj
  · rw [hmain]
    show (freeWhere env (childId :: (mid ++ ancId :: rest)) false
        (updStore st childId (setA (st childId) key fresh))).2.2.head?
      = some (Event.freed key fresh fres)
    have hpend : updStore st childId (setA (st childId) key fresh) childId
        = (key, fresh) :: eraseA (st childId) key := by
      rw [updStore_same, setA_eq]
    show (freeGo env (childId :: (mid ++ ancId :: rest)) childId false
        (updStore st childId (setA (st childId) key fresh) childId)
        (updStore st childId (setA (st childId) key fresh))).2.2.head?
      = some (Event.freed key fresh fres)
    rw [hpend]
    simp only [freeGo, hgl]
    rw [if_pos (by simp)]
    have hlf : (linkFree p key childId
        (updStore st childId (setA (st childId) key fresh))).2.2
        = [Event.freed key fresh fres] := by
      simp only [linkFree, hfr]
      rw [updStore_same, lookupA_setA_self]
      rfl
    rw [hlf]
    rfl

/-- C1 witness: the theorem applied to a concrete chain (child 0, middle
scope 1, ancestor 2 carrying a `Scope`-lifetime provider for key 4). -/
theorem c1_scope_lifetime_on_descendant_w :
    (scopeGet envC1 [0, 1, 2] st0 4 0).res = Except.ok 0 ∧
    (scopeGet envC1 [0, 1, 2] st0 4 0).store 0 = setA (st0 0) 4 0 ∧
    (scopeGet envC1 [0, 1, 2] st0 4 0).store 2 = st0 2 ∧
    (scopeGet envC1 [0, 1, 2] st0 4 0).events = [Event.created 4 0] ∧
    (scopeFree envC1 [0, 1, 2] (scopeGet envC1 [0, 1, 2] st0 4 0).store).2.2.head?
      = some (Event.freed 4 0 none) := by
  have h := c1_scope_lifetime_on_descendant envC1 st0 0 2 [1] [] 4 0 scopedProv none
    rfl
    (by
      intro i hi
      rcases List.mem_cons.1 hi with h0 | h1
      · rw [h0]; rfl
      · rcases List.mem_singleton.1 h1 with h2
        rw [h2]; rfl)
    rfl rfl rfl rfl
  exact ⟨h.1, h.2.1, h.2.2.1 2 (by decide), h.2.2.2.1, h.2.2.2.2⟩

/-- C4 counterexample: for the `Once` provider of key 1 on scope 0, a single
`Hydrate` triggers one `Create` but no `Free` at all (the instance stays
cached; the caller must call `FreeOnce` separately), refuting "a single
Hydrate call triggers exactly one Create call and exactly one matching Free
call"; moreover an `Invoke` whose second argument fails to resolve returns
early without releasing the `Once` instance created for its first argument,
which is then visible (passed as an argument) during the next invocation. -/
theorem c4_hydrate_no_free_cex :
    (hydrate envC4 [0] st0 (HydTarget.ptrTo (GoVal.prim 1 0)) 0).err = none ∧
    (hydrate envC4 [0] st0 (HydTarget.ptrTo (GoVal.prim 1 0)) 0).events
      = [Event.created 1 0] ∧
    (hydrate envC4 [0] st0 (HydTarget.ptrTo (GoVal.prim 1 0)) 0).store 0 = [(1, 0)] ∧
    (invoke envC4 [0] st0 (FnSpec.fn [ParamSpec.byPtr 1 11, ParamSpec.byPtr 2 12]) 0).res
      = Except.error (Err.custom 9) ∧
    (invoke envC4 [0] st0 (FnSpec.fn [ParamSpec.byPtr 1 11, ParamSpec.byPtr 2 12]) 0).store 0
      = [(1, 0)] ∧
    (invoke envC4 [0]
        (invoke envC4 [0] st0 (FnSpec.fn [ParamSpec.byPtr 1 11, ParamSpec.byPtr 2 12]) 0).store
        (FnSpec.fn [ParamSpec.byPtr 1 11]) 5).events
      = [Event.called [Arg.ptrArg 0], Event.freed 1 0 none] := by
  refine ⟨?_, ?_, ?_, rfl, rfl, rfl⟩ <;>
    simp [hydrate, hydrateValue, scopeGet, scopeGetAt, dynFallback, getLink, linkGet,
      lookupA, setA, updStore, envC4, onceProv, st0, tyOf, scopedLink, isNoProvider]

/-- C4 amended: for a `Once` provider registered on the invoking scope with a
`Create` and a `Free`, a successful `Invoke` of a function taking the type by
pointer triggers exactly one `Create` and exactly one matching `Free` on the
created instance and leaves it uncached; a single `Hydrate` triggers exactly
one `Create` but no `Free` — the instance stays cached (until `FreeOnce`);
and an `Invoke` that fails during argument resolution leaves the already
created `Once` instance cached. -/
theorem c4_once_lifecycle_amended (env : Env) (st : Store) (id : Nat)
    (key kp : Ty) (r : Option Err) (fresh : Nat) (p : Provider)
    (hp : env.providersOf id key = some p)
    (hlt : p.lifetime = Lifetime.once)
    (hcr : p.create = some CreateSpec.succeed)
    (hapu : p.afterPointerUse = none)
    (hfr : p.free = some r)
    (hni : lookupA (st id) key = none) :
    ((invoke env [id] st (FnSpec.fn [ParamSpec.byPtr key kp]) fresh).res
        = Except.ok () ∧
      (invoke env [id] st (FnSpec.fn [ParamSpec.byPtr key kp]) fresh).events.filter
          (isCreateFor key) = [Event.created key fresh] ∧
      (invoke env [id] st (FnSpec.fn [ParamSpec.byPtr key kp]) fresh).events.filter
          (isFreeFor key) = [Event.freed key fresh r] ∧
      lookupA ((invoke env [id] st (FnSpec.fn [ParamSpec.byPtr key kp]) fresh).store id)
        key = none) ∧
    ((hydrate env [id] st (HydTarget.ptrTo (GoVal.prim key 0)) fresh).err = none ∧
      (hydrate env [id] st (HydTarget.ptrTo (GoVal.prim key 0)) fresh).events.filter
          (isCreateFor key) = [Event.created key fresh] ∧
      (hydrate env [id] st (HydTarget.ptrTo (GoVal.prim key 0)) fresh).events.filter
          (isFreeFor key) = [] ∧
      lookupA ((hydrate env [id] st (HydTarget.ptrTo (GoVal.prim key 0)) fresh).store id)
        key = some fresh) ∧
    (∀ key2 kp2 p2 e, env.providersOf id key2 = some p2 →
      p2.create = some (CreateSpec.fail e) → isNoProvider e = false → key2 ≠ key →
      lookupA (st id) key2 = none →
      (invoke env [id] st
          (FnSpec.fn [ParamSpec.byPtr key kp, ParamSpec.byPtr key2 kp2]) fresh).res
        = Except.error e ∧
      lookupA ((invoke env [id] st
          (FnSpec.fn [ParamSpec.byPtr key kp, ParamSpec.byPtr key2 kp2]) fresh).store id)
        key = some fresh) := by
  have hgl : getLink env [id] key = some p := by simp only [getLink, hp]
  have hsl : scopedLink (getLink env [id] key) = none := by
    rw [hgl]
    simp [scopedLink, hlt]
  have hget : scopeGet env [id] st key fresh
      = ⟨Except.ok fresh, updStore st id (setA (st id) key fresh), fresh + 1,
          [Event.created key fresh]⟩ := by
    rw [scopeGet_cons]
    simp only [scopeGetAt, hni, hsl, hp, linkGet, hcr]
  have hst2id : updStore st id (setA (st id) key fresh) id
      = (key, fresh) :: eraseA (st id) key := by
    rw [updStore_same, setA_eq]
  have hlook2 : lookupA (updStore st id (setA (st id) key fresh) id) key = some fresh := by
    rw [updStore_same]
    exact lookupA_setA_self _ _ _
  have hres : resolveArgs env [id] st [ParamSpec.byPtr key kp] fresh
      = ⟨none, [Arg.ptrArg fresh], updStore st id (setA (st id) key fresh), fresh + 1,
          [Event.created key fresh]⟩ := by
    simp only [resolveArgs, hydrateType, hget]
    rfl
  have hapuP : afterUsePass env id (updStore st id (setA (st id) key fresh))
      [ParamSpec.byPtr key kp] = (none, []) := by
    simp only [afterUsePass, hp, linkAfterPointerUse, hapu]
    rfl
  have hcond : (!true || isOnce p.lifetime) = true := by simp [hlt, isOnce]
  have hlf2 : (linkFree p key id (updStore st id (setA (st id) key fresh))).2.2
      = [Event.freed key fresh r] := by
    simp only [linkFree, hfr]
    rw [hlook2]
    rfl
  have hfw : (freeWhere env [id] true (updStore st id (setA (st id) key fresh))).2.2
      = Event.freed key fresh r ::
          (freeGo env [id] id true (eraseA (st id) key)
            (linkFree p key id (updStore st id (setA (st id) key fresh))).2.1).2.2 := by
    show (freeGo env [id] id true (updStore st id (setA (st id) key fresh) id)
        (updStore st id (setA (st id) key fresh))).2.2 = _
    rw [hst2id]
    simp only [freeGo, hgl]
    rw [if_pos hcond, hlf2]
    rfl
  have hfwst : (freeWhere env [id] true (updStore st id (setA (st id) key fresh))).2.1
      = (freeGo env [id] id true (eraseA (st id) key)
          (linkFree p key id (updStore st id (setA (st id) key fresh))).2.1).1 := by
    show (freeGo env [id] id true (updStore st id (setA (st id) key fresh) id)
        (updStore st id (setA (st id) key fresh))).1 = _
    rw [hst2id]
    simp only [freeGo, hgl]
    rw [if_pos hcond]
  have hstfree : lookupA ((freeWhere env [id] true
      (updStore st id (setA (st id) key fresh))).2.1 id) key = none := by
    rw [hfwst]
    refine freeGo_absent env [id] id true key _ _ ?_
    rw [linkFree_store, updStore_same]
    exact lookupA_eraseA_self _ _
  refine ⟨?_, ?_, ?_⟩
  · simp only [invoke, hres, List.headD_cons, hapuP]
    refine ⟨trivial, ?_, ?_, hstfree⟩
    · rw [List.filter_append, List.filter_append, hfw]
      simp [isCreateFor, freeGo_filter_create]
    · rw [List.filter_append, List.filter_append, hfw]
      have hnm : key ∉ (eraseA (st id) key).map Prod.fst := eraseA_key_not_mem _ _
      simp [isFreeFor, freeGo_filter_free_notmem env [id] id true key _ _ hnm]
  · have hhv : hydrateValue env [id] st (GoVal.prim key 0) fresh
        = ⟨none, GoVal.fromInst key fresh, updStore st id (setA (st id) key fresh),
            fresh + 1, [Event.created key fresh]⟩ := by
      simp only [hydrateValue, tyOf, hget]
    refine ⟨?_, ?_, ?_, ?_⟩
    · simp only [hydrate, hhv]
    · simp only [hydrate, hhv]
      simp [isCreateFor]
    · simp only [hydrate, hhv]
      simp [isFreeFor]
    · simp only [hydrate, hhv]
      exact hlook2
  · intro key2 kp2 p2 e hp2 hcr2 hnp2 hk2 hni2
    have hgl2 : getLink env [id] key2 = some p2 := by simp only [getLink, hp2]
    have hlk2 : lookupA (updStore st id (setA (st id) key fresh) id) key2 = none := by
      rw [updStore_same, lookupA_setA_ne _ _ _ _ hk2]
      exact hni2
    have hget2 : scopeGet env [id] (updStore st id (setA (st id) key fresh)) key2 (fresh + 1)
        = ⟨Except.error e, updStore st id (setA (st id) key fresh), fresh + 1, []⟩ := by
      rw [scopeGet_cons]
      by_cases hs2 : p2.lifetime = Lifetime.scoped
      · have hsl2 : scopedLink (getLink env [id] key2) = some p2 := by
          rw [hgl2]
          simp [scopedLink, hs2]
        simp only [scopeGetAt, hlk2, hsl2, linkGet, hcr2]
      · have hsl2 : scopedLink (getLink env [id] key2) = none := by
          rw [hgl2]
          simp [scopedLink, hs2]
        simp only [scopeGetAt, hlk2, hsl2, hp2, linkGet, hcr2]
    have hres2 : resolveArgs env [id] st
        [ParamSpec.byPtr key kp, ParamSpec.byPtr key2 kp2] fresh
        = ⟨some e, [Arg.ptrArg fresh], updStore st id (setA (st id) key fresh),
            fresh + 1, [Event.created key fresh]⟩ := by
      simp only [resolveArgs, hydrateType, hget, hget2]
      rw [if_neg (by simp [hnp2])]
      rfl
    simp only [invoke, hres2]
    exact ⟨trivial, hlook2⟩

/-- C4 witness: the amended theorem at the concrete `Once` provider of
`envC4` (key 1, `Free` succeeding), with key 2's failing provider as the
second argument of the failing invocation. -/
theorem c4_once_lifecycle_amended_w :
    (invoke envC4 [0] st0 (FnSpec.fn [ParamSpec.byPtr 1 11]) 0).res = Except.ok () ∧
    (invoke envC4 [0] st0 (FnSpec.fn [ParamSpec.byPtr 1 11]) 0).events.filter
        (isFreeFor 1) = [Event.freed 1 0 none] ∧
    (hydrate envC4 [0] st0 (HydTarget.ptrTo (GoVal.prim 1 0)) 0).events.filter
        (isFreeFor 1) = [] ∧
    (invoke envC4 [0] st0
        (FnSpec.fn [ParamSpec.byPtr 1 11, ParamSpec.byPtr 2 12]) 0).res
      = Except.error (Err.custom 9) := by
  have h := c4_once_lifecycle_amended envC4 st0 0 1 11 none 0 onceProv rfl rfl rfl rfl
    rfl rfl
  exact ⟨h.1.1, h.1.2.2.1, h.2.1.2.2.1,
    (h.2.2 2 12 failProv (Err.custom 9) rfl rfl rfl (by decide) rfl).1⟩

/-- C5 counterexample: for the `Once` provider of key 1 on scope 0 whose
`Free` fails with `custom 7`, a successful `Invoke` returns no error at all —
the `FreeOnce` aggregate is discarded (`scope.FreeOnce()` is called and its
result dropped), even though the `Free` callback did fail; and for key 3,
whose provider's `AfterPointerUse` fails, `Invoke` returns before the release
step, leaving the `Once` instance cached. -/
theorem c5_teardown_dropped_cex :
    (invoke envC5 [0] st0 (FnSpec.fn [ParamSpec.byPtr 1 11]) 0).res = Except.ok () ∧
    (invoke envC5 [0] st0 (FnSpec.fn [ParamSpec.byPtr 1 11]) 0).events
      = [Event.created 1 0, Event.called [Arg.ptrArg 0],
          Event.freed 1 0 (some (Err.custom 7))] ∧
    (invoke envC5 [0] st0 (FnSpec.fn [ParamSpec.byPtr 3 13]) 0).res
      = Except.error (Err.custom 8) ∧
    (invoke envC5 [0] st0 (FnSpec.fn [ParamSpec.byPtr 3 13]) 0).store 0 = [(3, 0)] :=
  ⟨rfl, rfl, rfl, rfl⟩

/-- C5 amended: `Invoke` runs `FreeOnce` only when argument resolution, the
invalid-argument check and the `AfterPointerUse` notifications all succeed —
a failing `AfterPointerUse` (or argument resolution) returns early with the
`Once` instances still cached and no `Free` called — and even when the
release does run, its aggregate teardown error is discarded: `Invoke` returns
`ok` to the caller although the `Free` callback failed. -/
theorem c5_invoke_release_amended (env : Env) (st : Store) (id : Nat)
    (key kp : Ty) (e : Err) (fresh : Nat) (p : Provider)
    (hp : env.providersOf id key = some p)
    (hlt : p.lifetime = Lifetime.once)
    (hcr : p.create = some CreateSpec.succeed)
    (hapu : p.afterPointerUse = none)
    (hfr : p.free = some (some e))
    (hni : lookupA (st id) key = none) :
    ((invoke env [id] st (FnSpec.fn [ParamSpec.byPtr key kp]) fresh).res
        = Except.ok () ∧
      Event.freed key fresh (some e) ∈
        (invoke env [id] st (FnSpec.fn [ParamSpec.byPtr key kp]) fresh).events) ∧
    (∀ key2 kp2 p2 e2, env.providersOf id key2 = some p2 →
      p2.lifetime = Lifetime.once → p2.create = some CreateSpec.succeed →
      p2.afterPointerUse = some (some e2) → lookupA (st id) key2 = none →
      (invoke env [id] st (FnSpec.fn [ParamSpec.byPtr key2 kp2]) fresh).res
        = Except.error e2 ∧
      lookupA ((invoke env [id] st (FnSpec.fn [ParamSpec.byPtr key2 kp2]) fresh).store id)
        key2 = some fresh ∧
      (invoke env [id] st (FnSpec.fn [ParamSpec.byPtr key2 kp2]) fresh).events.filter
        (isFreeFor key2) = []) := by
  constructor
  · have hgl : getLink env [id] key = some p := by simp only [getLink, hp]
    have hsl : scopedLink (getLink env [id] key) = none := by
      rw [hgl]
      simp [scopedLink, hlt]
    have hget : scopeGet env [id] st key fresh
        = ⟨Except.ok fresh, updStore st id (setA (st id) key fresh), fresh + 1,
            [Event.created key fresh]⟩ := by
      rw [scopeGet_cons]
      simp only [scopeGetAt, hni, hsl, hp, linkGet, hcr]
    have hlook2 : lookupA (updStore st id (setA (st id) key fresh) id) key
        = some fresh := by
      rw [updStore_same]
      exact lookupA_setA_self _ _ _
    have hres : resolveArgs env [id] st [ParamSpec.byPtr key kp] fresh
        = ⟨none, [Arg.ptrArg fresh], updStore st id (setA (st id) key fresh), fresh + 1,
            [Event.created key fresh]⟩ := by
      simp only [resolveArgs, hydrateType, hget]
      rfl
    have hapuP : afterUsePass env id (updStore st id (setA (st id) key fresh))
        [ParamSpec.byPtr key kp] = (none, []) := by
      simp only [afterUsePass, hp, linkAfterPointerUse, hapu]
      rfl
    have hfw : (freeWhere env [id] true (updStore st id (setA (st id) key fresh))).2.2
        = Event.freed key fresh (some e) ::
            (freeGo env [id] id true (eraseA (st id) key)
              (linkFree p key id (updStore st id (setA (st id) key fresh))).2.1).2.2 := by
      show (freeGo env [id] id true (updStore st id (setA (st id) key fresh) id)
          (updStore st id (setA (st id) key fresh))).2.2 = _
      rw [show updStore st id (setA (st id) key fresh) id
          = (key, fresh) :: eraseA (st id) key by rw [updStore_same, setA_eq]]
      simp only [freeGo, hgl]
      rw [if_pos (by simp [hlt, isOnce])]
      have hlf2 : (linkFree p key id (updStore st id (setA (st id) key fresh))).2.2
          = [Event.freed key fresh (some e)] := by
        simp only [linkFree, hfr]
        rw [hlook2]
        rfl
      rw [hlf2]
      rfl
    simp only [invoke, hres, List.headD_cons, hapuP]
    refine ⟨trivial, ?_⟩
    rw [hfw]
    simp
  · intro key2 kp2 p2 e2 hp2 hlt2 hcr2 hapu2 hni2
    have hgl2 : getLink env [id] key2 = some p2 := by simp only [getLink, hp2]
    have hsl2 : scopedLink (getLink env [id] key2) = none := by
      rw [hgl2]
      simp [scopedLink, hlt2]
    have hget2 : scopeGet env [id] st key2 fresh
        = ⟨Except.ok fresh, updStore st id (setA (st id) key2 fresh), fresh + 1,
            [Event.created key2 fresh]⟩ := by
      rw [scopeGet_cons]
      simp only [scopeGetAt, hni2, hsl2, hp2, linkGet, hcr2]
    have hlook2 : lookupA (updStore st id (setA (st id) key2 fresh) id) key2
        = some fresh := by
      rw [updStore_same]
      exact lookupA_setA_self _ _ _
    have hres2 : resolveArgs env [id] st [ParamSpec.byPtr key2 kp2] fresh
        = ⟨none, [Arg.ptrArg fresh], updStore st id (setA (st id) key2 fresh), fresh + 1,
            [Event.created key2 fresh]⟩ := by
      simp only [resolveArgs, hydrateType, hget2]
      rfl
    have hapuP2 : afterUsePass env id (updStore st id (setA (st id) key2 fresh))
        [ParamSpec.byPtr key2 kp2] = (some e2, [Event.apu key2 fresh]) := by
      simp only [afterUsePass, hp2, linkAfterPointerUse, hapu2]
      rw [hlook2]
      rfl
    simp only [invoke, hres2, List.headD_cons, hapuP2]
    refine ⟨trivial, hlook2, ?_⟩
    simp [isFreeFor]

/-- C5 witness: the amended theorem at `envC5` (key 1's `Once` provider with a
failing `Free`; key 3's provider with a failing `AfterPointerUse`). -/
theorem c5_invoke_release_amended_w :
    (invoke envC5 [0] st0 (FnSpec.fn [ParamSpec.byPtr 1 11]) 0).res = Except.ok () ∧
    Event.freed 1 0 (some (Err.custom 7)) ∈
      (invoke envC5 [0] st0 (FnSpec.fn [ParamSpec.byPtr 1 11]) 0).events ∧
    (invoke envC5 [0] st0 (FnSpec.fn [ParamSpec.byPtr 3 13]) 0).res
      = Except.error (Err.custom 8) := by
  have h := c5_invoke_release_amended envC5 st0 0 1 11 (Err.custom 7) 0 onceFreeErr
    rfl rfl rfl rfl rfl rfl
  exact ⟨h.1.1, h.1.2, (h.2 3 13 apuErrProv (Err.custom 8) rfl rfl rfl rfl rfl).1⟩

theorem scopeGet_bare (env : Env) (key : Ty) (st : Store) (rid : Nat) :
    ∀ (front : List Nat),
      (∀ i ∈ front ++ [rid], lookupA (st i) key = none ∧ env.providersOf i key = none) →
      (∀ f, ∃ v, (dynFallback env rid key st f).res = Except.ok v) →
      ∀ fresh, scopeGet env (front ++ [rid]) st key fresh
        = dynFallback env rid key st fresh := by
  intro front
  induction front with
  | nil =>
    intro hb _ fresh
    have hlook : lookupA (st rid) key = none := (hb rid (by simp)).1
    have hprov : env.providersOf rid key = none := (hb rid (by simp)).2
    have hgl : getLink env [rid] key = none := by simp only [getLink, hprov]
    rw [List.nil_append, scopeGet_cons]
    simp only [scopeGetAt, hlook, hgl, scopedLink, hprov]
  | cons id front2 ih =>
    intro hb hdyn fresh
    have hbrest : ∀ i ∈ front2 ++ [rid],
        lookupA (st i) key = none ∧ env.providersOf i key = none :=
      fun i hi => hb i (List.mem_cons_of_mem _ hi)
    have hlook : lookupA (st id) key = none := (hb id (by simp)).1
    have hprov : env.providersOf id key = none := (hb id (by simp)).2
    have hpr : scopeGet env (front2 ++ [rid]) st key fresh
        = dynFallback env rid key st fresh := ih hbrest hdyn fresh
    obtain ⟨v, hv⟩ := hdyn fresh
    rw [List.cons_append, scopeGet_cons]
    cases front2 with
    | nil =>
      have hgl2 : getLink env [id, rid] key = none := by
        refine getLink_none env key _ ?_
        intro i hi
        exact (hb i (by simpa using hi)).2
      simp only [List.nil_append] at hpr ⊢
      simp only [scopeGetAt, hlook, hgl2, scopedLink, hprov, hpr, hv]
    | cons f2 frest =>
      have hgl2 : getLink env (id :: f2 :: (frest ++ [rid])) key = none := by
        refine getLink_none env key _ ?_
        intro i hi
        exact (hb i (by simpa using hi)).2
      simp only [List.cons_append] at hpr ⊢
      simp only [scopeGetAt, hlook, hgl2, scopedLink, hprov, hpr, hv]

theorem getScoped_bare (env : Env) (key : Ty) (st : Store) (rid : Nat) :
    ∀ (front : List Nat),
      (∀ i ∈ front ++ [rid], lookupA (st i) key = none ∧ env.providersOf i key = none) →
      (∀ f, ∃ v, (scopedDynFallback env rid key st f).out = Outcome.ok v) →
      ∀ fresh, getScoped env (front ++ [rid]) st key fresh
        = scopedDynFallback env rid key st fresh := by
  intro front
  induction front with
  | nil =>
    intro hb _ fresh
    have hlook : lookupA (st rid) key = none := (hb rid (by simp)).1
    have hprov : env.providersOf rid key = none := (hb rid (by simp)).2
    rw [List.nil_append, getScoped_cons]
    simp only [getScopedAt, hlook, hprov]
  | cons id front2 ih =>
    intro hb hdyn fresh
    have hbrest : ∀ i ∈ front2 ++ [rid],
        lookupA (st i) key = none ∧ env.providersOf i key = none :=
      fun i hi => hb i (List.mem_cons_of_mem _ hi)
    have hlook : lookupA (st id) key = none := (hb id (by simp)).1
    have hprov : env.providersOf id key = none := (hb id (by simp)).2
    have hpr : getScoped env (front2 ++ [rid]) st key fresh
        = scopedDynFallback env rid key st fresh := ih hbrest hdyn fresh
    obtain ⟨v, hv⟩ := hdyn fresh
    rw [List.cons_append, getScoped_cons]
    cases front2 with
    | nil =>
      simp only [List.nil_append] at hpr ⊢
      simp only [getScopedAt, hlook, hprov, hpr, hv]
    | cons f2 frest =>
      simp only [List.cons_append] at hpr ⊢
      simp only [getScopedAt, hlook, hprov, hpr, hv]

/-- C9: when no scope in the chain has a cached instance or a provider for
the key, resolution through the dynamic fallback — the type's
`ProvideDynamic` capability, or the root scope's `Dynamic` callback — leaves
every scope's instance map exactly as it was (`store = st` in the result),
and since the state is unchanged and the conclusion holds for every `fresh`,
the dynamic path re-runs identically on every request.  This holds for both
`Scope.Get` and `GetScoped`. -/
theorem c9_dynamic_no_cache (env : Env) (front : List Nat) (rid : Nat) (st : Store)
    (key : Ty)
    (hb : ∀ i ∈ front ++ [rid], lookupA (st i) key = none ∧ env.providersOf i key = none) :
    (env.dynTypes key = some none →
      ∀ fresh, scopeGet env (front ++ [rid]) st key fresh
        = ⟨Except.ok fresh, st, fresh + 1, [Event.dynType key]⟩) ∧
    (∀ cb v, env.dynTypes key = none → env.dynCbOf rid = some cb →
      cb key = DynRes.val v →
      ∀ fresh, scopeGet env (front ++ [rid]) st key fresh
        = ⟨Except.ok v, st, fresh, [Event.dynCall key]⟩) ∧
    (env.dynTypes key = some none →
      ∀ fresh, getScoped env (front ++ [rid]) st key fresh
        = ⟨Outcome.ok fresh, st, fresh + 1, [Event.dynType key]⟩) ∧
    (∀ cb v, env.dynTypes key = none → env.dynCbOf rid = some cb →
      cb key = DynRes.val v →
      ∀ fresh, getScoped env (front ++ [rid]) st key fresh
        = ⟨Outcome.ok v, st, fresh, [Event.dynCall key]⟩) := by
  refine ⟨?_, ?_, ?_, ?_⟩
  · intro hdt fresh
    have hdf : ∀ f, dynFallback env rid key st f
        = ⟨Except.ok f, st, f + 1, [Event.dynType key]⟩ := by
      intro f
      simp only [dynFallback, hdt]
    rw [scopeGet_bare env key st rid front hb (fun f => ⟨f, by rw [hdf f]⟩) fresh, hdf]
  · intro cb v hdt hcb hcbv fresh
    have hdf : ∀ f, dynFallback env rid key st f
        = ⟨Except.ok v, st, f, [Event.dynCall key]⟩ := by
      intro f
      simp only [dynFallback, hdt, hcb, hcbv]
    rw [scopeGet_bare env key st rid front hb (fun f => ⟨v, by rw [hdf f]⟩) fresh, hdf]
  · intro hdt fresh
    have hdf : ∀ f, scopedDynFallback env rid key st f
        = ⟨Outcome.ok f, st, f + 1, [Event.dynType key]⟩ := by
      intro f
      simp only [scopedDynFallback, hdt]
    rw [getScoped_bare env key st rid front hb (fun f => ⟨f, by rw [hdf f]⟩) fresh, hdf]
  · intro cb v hdt hcb hcbv fresh
    have hdf : ∀ f, scopedDynFallback env rid key st f
        = ⟨Outcome.ok v, st, f, [Event.dynCall key]⟩ := by
      intro f
      simp only [scopedDynFallback, hdt, hcb, hcbv]
    rw [getScoped_bare env key st rid front hb (fun f => ⟨v, by rw [hdf f]⟩) fresh, hdf]

/-- C9 witness: in `envC9a` (type 5 implements `Dynamic`) two consecutive
`Get`s on the child chain both run the type capability and leave the store
untouched; in `envC9b` (dynamic callback on root scope 1) `Get` and
`GetScoped` return the callback's value with the store untouched. -/
theorem c9_dynamic_no_cache_w :
    scopeGet envC9a [0, 1] st0 5 0 = ⟨Except.ok 0, st0, 1, [Event.dynType 5]⟩ ∧
    scopeGet envC9a [0, 1] st0 5 1 = ⟨Except.ok 1, st0, 2, [Event.dynType 5]⟩ ∧
    scopeGet envC9b [0, 1] st0 6 0 = ⟨Except.ok 42, st0, 0, [Event.dynCall 6]⟩ ∧
    getScoped envC9b [0, 1] st0 6 0 = ⟨Outcome.ok 42, st0, 0, [Event.dynCall 6]⟩ := by
  have ha := c9_dynamic_no_cache envC9a [0] 1 st0 5
    (fun i _ => ⟨rfl, rfl⟩)
  have hbb := c9_dynamic_no_cache envC9b [0] 1 st0 6
    (fun i _ => ⟨rfl, rfl⟩)
  exact ⟨ha.1 rfl 0, ha.1 rfl 1,
    hbb.2.1 (fun _ => DynRes.val 42) 42 rfl rfl rfl 0,
    hbb.2.2.2 (fun _ => DynRes.val 42) 42 rfl rfl rfl 0⟩

theorem tyOf_mem_slotTypes (gv : GoVal) : tyOf gv ∈ slotTypes gv := by
  cases gv <;> simp [slotTypes, tyOf]

theorem hydrate_unres (env : Env) (ch : List Nat) (st : Store) : ∀ n : Nat,
    (∀ gv : GoVal, sizeOf gv ≤ n → ∀ f, UnresAll env ch st (slotTypes gv) →
      (hydrateValue env ch st gv f).err = none ∧
      (hydrateValue env ch st gv f).store = st ∧
      (hydrateValue env ch st gv f).fresh = f ∧
      (mapFree gv = true → (hydrateValue env ch st gv f).val = gv)) ∧
    (∀ gvs : List GoVal, sizeOf gvs ≤ n → ∀ f,
      UnresAll env ch st (slotTypesList gvs) →
      (hydrateList env ch st gvs f).err = none ∧
      (hydrateList env ch st gvs f).store = st ∧
      (hydrateList env ch st gvs f).fresh = f ∧
      (mapFreeList gvs = true → (hydrateList env ch st gvs f).vals = gvs)) ∧
    (∀ (entries : List (Nat × GoVal)) (zero : GoVal),
      sizeOf entries + sizeOf zero ≤ n → ∀ f, UnresAll env ch st (slotTypes zero) →
      (hydrateMap env ch st entries zero f).err = none ∧
      (hydrateMap env ch st entries zero f).store = st ∧
      (hydrateMap env ch st entries zero f).fresh = f) := by
  intro n
  induction n using Nat.strong_induction_on with
  | _ n ih =>
    refine ⟨?_, ?_, ?_⟩
    · intro gv hsz f hun
      have hu : Unres env ch st (tyOf gv) := hun (tyOf gv) (tyOf_mem_slotTypes gv)
      have hres := (hu f).1
      have hfre := (hu f).2
      have hstore : (scopeGet env ch st (tyOf gv) f).store = st :=
        scopeGet_error_store env ch st (tyOf gv) f _ hres
      cases gv with
      | prim t d =>
        simp only [tyOf] at hres hstore hfre
        simp only [hydrateValue, tyOf, hres, isNoProvider, if_true]
        exact ⟨trivial, hstore, hfre, fun _ => trivial⟩
      | fromInst t v =>
        simp only [tyOf] at hres hstore hfre
        simp only [hydrateValue, tyOf, hres, isNoProvider, if_true]
        exact ⟨trivial, hstore, hfre, fun _ => trivial⟩
      | nilRef t =>
        simp only [tyOf] at hres hstore hfre
        simp only [hydrateValue, tyOf, hres, isNoProvider, if_true]
        exact ⟨trivial, hstore, hfre, fun _ => trivial⟩
      | ptrVal t v =>
        simp only [tyOf] at hres hstore hfre
        simp only [hydrateValue, tyOf, hres, isNoProvider, if_true]
        exact ⟨trivial, hstore, hfre, fun _ => trivial⟩
      | structV t fields =>
        simp only [tyOf] at hres hstore hfre
        have hunl : UnresAll env ch st (slotTypesList fields) := by
          intro k hk
          exact hun k (by simp [slotTypes, hk])
        have hszf : sizeOf fields < n := by
          have h1 : sizeOf fields < sizeOf (GoVal.structV t fields) := by simp
          omega
        have hl := (ih (sizeOf fields) hszf).2.1 fields (le_refl _) f hunl
        simp only [hydrateValue, tyOf, hres, isNoProvider, if_true, hstore, hfre, mapFree]
        refine ⟨hl.1, hl.2.1, hl.2.2.1, ?_⟩
        intro hmf
        rw [hl.2.2.2 hmf]
      | arrV t elems =>
        simp only [tyOf] at hres hstore hfre
        have hunl : UnresAll env ch st (slotTypesList elems) := by
          intro k hk
          exact hun k (by simp [slotTypes, hk])
        have hszf : sizeOf elems < n := by
          have h1 : sizeOf elems < sizeOf (GoVal.arrV t elems) := by simp
          omega
        have hl := (ih (sizeOf elems) hszf).2.1 elems (le_refl _) f hunl
        simp only [hydrateValue, tyOf, hres, isNoProvider, if_true, hstore, hfre, mapFree]
        refine ⟨hl.1, hl.2.1, hl.2.2.1, ?_⟩
        intro hmf
        rw [hl.2.2.2 hmf]
      | mapV t entries zero =>
        simp only [tyOf] at hres hstore hfre
        have hunz : UnresAll env ch st (slotTypes zero) := by
          intro k hk
          exact hun k (by simp [slotTypes, hk])
        have hszm : sizeOf entries + sizeOf zero < n := by
          have h1 : sizeOf entries + sizeOf zero
              < sizeOf (GoVal.mapV t entries zero) := by
            simp
          omega
        have hm := (ih (sizeOf entries + sizeOf zero) hszm).2.2 entries zero
          (le_refl _) f hunz
        simp only [hydrateValue, tyOf, hres, isNoProvider, if_true, hstore, hfre, mapFree]
        exact ⟨hm.1, hm.2.1, hm.2.2, by intro hc; exact absurd hc (by simp)⟩
    · intro gvs hsz f hun
      cases gvs with
      | nil =>
        simp [hydrateList]
      | cons gv rest =>
        have hun1 : UnresAll env ch st (slotTypes gv) := by
          intro k hk
          exact hun k (by simp [slotTypesList, hk])
        have hunr : UnresAll env ch st (slotTypesList rest) := by
          intro k hk
          exact hun k (by simp [slotTypesList, hk])
        have hsz1 : sizeOf gv < n := by
          have h1 : sizeOf gv < sizeOf (gv :: rest) := by
            simp
            all_goals omega
          omega
        have hszr : sizeOf rest < n := by
          have h1 : sizeOf rest < sizeOf (gv :: rest) := by
            simp
          omega
        have h1 := (ih (sizeOf gv) hsz1).1 gv (le_refl _) f hun1
        have h2 := (ih (sizeOf rest) hszr).2.1 rest (le_refl _) f hunr
        simp only [hydrateList, h1.1, h1.2.1, h1.2.2.1]
        refine ⟨h2.1, h2.2.1, h2.2.2.1, ?_⟩
        intro hmf
        simp only [mapFreeList, Bool.and_eq_true] at hmf
        rw [h1.2.2.2 hmf.1, h2.2.2.2 hmf.2]
    · intro entries zero hsz f hunz
      cases entries with
      | nil =>
        simp [hydrateMap]
      | cons a rest =>
        obtain ⟨k, v0⟩ := a
        have hszz : sizeOf zero < n := by
          have h1 : (1 : Nat) ≤ sizeOf ((k, v0) :: rest) := by
            simp
            all_goals omega
          omega
        have hszr : sizeOf rest + sizeOf zero < n := by
          have h1 : sizeOf rest < sizeOf ((k, v0) :: rest) := by
            simp
          omega
        have h1 := (ih (sizeOf zero) hszz).1 zero (le_refl _) f hunz
        have h2 := (ih (sizeOf rest + sizeOf zero) hszr).2.2 rest zero (le_refl _) f hunz
        simp only [hydrateMap, h1.1, h1.2.1, h1.2.2.1]
        exact ⟨h2.1, h2.2.1, h2.2.2⟩

theorem hydrateList_abort (env : Env) (ch : List Nat) (st : Store) (bad : GoVal)
    (post : List GoVal) (e : Err) (fresh : Nat)
    (hbad : (hydrateValue env ch st bad fresh).err = some e) :
    ∀ pre : List GoVal, UnresAll env ch st (slotTypesList pre) →
      (hydrateList env ch st (pre ++ bad :: post) fresh).err = some e ∧
      (hydrateList env ch st (pre ++ bad :: post) fresh).vals
        = (hydrateList env ch st pre fresh).vals
            ++ (hydrateValue env ch st bad fresh).val :: post := by
  intro pre
  induction pre with
  | nil =>
    intro _
    simp [hydrateList, hbad]
  | cons g pre2 ih =>
    intro hun
    have hun1 : UnresAll env ch st (slotTypes g) := by
      intro k hk
      exact hun k (by simp [slotTypesList, hk])
    have hunp : UnresAll env ch st (slotTypesList pre2) := by
      intro k hk
      exact hun k (by simp [slotTypesList, hk])
    have h1 := (hydrate_unres env ch st (sizeOf g)).1 g (le_refl _) fresh hun1
    have hrec := ih hunp
    simp only [List.cons_append, hydrateList, h1.1, h1.2.1, h1.2.2.1]
    exact ⟨hrec.1, by rw [hrec.2]⟩

/-- C6: the hydrator's error policy.  (a) `Hydrate` rejects a non-pointer
argument with `ErrNotPointer`.  (b) A value every one of whose slot types
resolves with `ErrNoProvider` hydrates with overall success: no error, the
engine state untouched, and (when the value contains no map nodes, map
entries being the one non-addressable spot the hydrator rebuilds) every slot
left exactly at its current value.  (c) In a struct whose leading fields are
unresolvable and whose next field's hydration fails with `some e` (any error
other than `NoProvider`), the whole hydration returns that exact error and
the remaining fields after the failing one are left untouched — the
traversal aborts. -/
theorem c6_hydrate_error_policy (env : Env) (ch : List Nat) (st : Store)
    (t : Ty) (pre : List GoVal) (bad : GoVal) (post : List GoVal) (e : Err)
    (fresh : Nat)
    (hTy : Unres env ch st t)
    (hpre : UnresAll env ch st (slotTypesList pre))
    (hbad : (hydrateValue env ch st bad fresh).err = some e) :
    (∀ (ch2 : List Nat) (st2 : Store) (f2 : Nat),
      (hydrate env ch2 st2 HydTarget.notPtr f2).err = some Err.notPointer) ∧
    (∀ (gv : GoVal) (f : Nat), UnresAll env ch st (slotTypes gv) →
      (hydrateValue env ch st gv f).err = none ∧
      (hydrateValue env ch st gv f).store = st ∧
      (hydrateValue env ch st gv f).fresh = f ∧
      (mapFree gv = true → (hydrateValue env ch st gv f).val = gv)) ∧
    ((hydrateValue env ch st (GoVal.structV t (pre ++ bad :: post)) fresh).err
        = some e ∧
      (hydrateValue env ch st (GoVal.structV t (pre ++ bad :: post)) fresh).val
        = GoVal.structV t ((hydrateList env ch st pre fresh).vals
            ++ (hydrateValue env ch st bad fresh).val :: post) ∧
      (hydrate env ch st
          (HydTarget.ptrTo (GoVal.structV t (pre ++ bad :: post))) fresh).err
        = some e) := by
  refine ⟨fun _ _ _ => rfl, ?_, ?_⟩
  · intro gv f hun
    exact (hydrate_unres env ch st (sizeOf gv)).1 gv (le_refl _) f hun
  · have hres := (hTy fresh).1
    have hfre := (hTy fresh).2
    have hstore : (scopeGet env ch st t fresh).store = st :=
      scopeGet_error_store env ch st t fresh _ hres
    have habort := hydrateList_abort env ch st bad post e fresh hbad pre hpre
    refine ⟨?_, ?_, ?_⟩
    · simp only [hydrateValue, tyOf, hres, isNoProvider, if_true, hstore, hfre]
      exact habort.1
    · simp only [hydrateValue, tyOf, hres, isNoProvider, if_true, hstore, hfre]
      rw [habort.2]
    · simp only [hydrate, hydrateValue, tyOf, hres, isNoProvider, if_true, hstore, hfre]
      exact habort.1

/-- C6 witness: in `envC6` (key 2's `Create` fails with `custom 9`, keys 4
and 7 unresolvable), hydrating a non-pointer fails with `NotPointer`, an
unresolvable leaf hydrates successfully and unchanged, and a struct of type 7
whose first field is unresolvable and whose second field's provider fails
aborts with exactly `custom 9`, leaving the third field untouched. -/
theorem c6_hydrate_error_policy_w :
    (hydrate envC6 [0] st0 HydTarget.notPtr 0).err = some Err.notPointer ∧
    (hydrateValue envC6 [0] st0 (GoVal.prim 4 9) 0).err = none ∧
    (hydrateValue envC6 [0] st0 (GoVal.prim 4 9) 0).val = GoVal.prim 4 9 ∧
    (hydrateValue envC6 [0] st0
        (GoVal.structV 7 ([GoVal.prim 4 9] ++ GoVal.prim 2 0 :: [GoVal.prim 4 3])) 0).err
      = some (Err.custom 9) ∧
    (hydrateValue envC6 [0] st0
        (GoVal.structV 7 ([GoVal.prim 4 9] ++ GoVal.prim 2 0 :: [GoVal.prim 4 3])) 0).val
      = GoVal.structV 7 ((hydrateList envC6 [0] st0 [GoVal.prim 4 9] 0).vals
          ++ (hydrateValue envC6 [0] st0 (GoVal.prim 2 0) 0).val :: [GoVal.prim 4 3]) := by
  have hTy : Unres envC6 [0] st0 7 := by
    intro f
    exact ⟨rfl, rfl⟩
  have hpre : UnresAll envC6 [0] st0 (slotTypesList [GoVal.prim 4 9]) := by
    intro k hk
    have hk4 : k = 4 := by simpa [slotTypesList, slotTypes] using hk
    rw [hk4]
    intro f
    exact ⟨rfl, rfl⟩
  have hbad : (hydrateValue envC6 [0] st0 (GoVal.prim 2 0) 0).err
      = some (Err.custom 9) := by
    simp [hydrateValue, scopeGet, scopeGetAt, dynFallback, getLink, linkGet, lookupA,
      updStore, envC6, failProv, st0, tyOf, scopedLink, isNoProvider]
  have h := c6_hydrate_error_policy envC6 [0] st0 7 [GoVal.prim 4 9] (GoVal.prim 2 0)
    [GoVal.prim 4 3] (Err.custom 9) 0 hTy hpre hbad
  have hone : UnresAll envC6 [0] st0 (slotTypes (GoVal.prim 4 9)) := by
    intro k hk
    have hk4 : k = 4 := by simpa [slotTypes] using hk
    rw [hk4]
    intro f
    exact ⟨rfl, rfl⟩
  exact ⟨h.1 [0] st0 0, (h.2.1 (GoVal.prim 4 9) 0 hone).1,
    (h.2.1 (GoVal.prim 4 9) 0 hone).2.2.2 rfl, h.2.2.1, h.2.2.2.1⟩

end Deps
